import Mathlib

/-!
Verification of the expression-calculator core of the repository
(`Weekly Exercise 4`): the `ValueTree` AST, the tree-walking evaluator
of `calculator.py` (`Calculator.evaluate_ast`), and the sequentializing
compiler of `compiler.py` (`Compiler.compile` / `Compiler.compile_ast`),
together with the parser-facing pieces of `exprparser.py`
(`make_gen_name` naming, the grammar's producible trees, `unparse`).

Modelling conventions:
  * Python numbers are modelled by `ℚ` (the evaluator works on ints and
    `/` produces exact results in the model; Python uses float division,
    and no claim below depends on float rounding).
  * Python's in-place mutation of the binding store, the generation map
    and the code buffer is modelled by explicit state threading: each
    function returns the updated state even when it raises, mirroring
    the state a caller observes after an exception.
  * Python exceptions are modelled by an error sum type carried next to
    the state.  `ValueError` instances raised by the source are
    `unknownOp`, `unboundVar` and `notImplemented`; `IndexError`,
    `TypeError` and `ZeroDivisionError` keep their own constructors
    because `Compiler.compile` catches only `ValueError`.
-/

/-- A value stored at a `ValueTree` node: either a string (node types,
operator names, identifiers) or a number (literals from `t_NUMBER`). -/
inductive Val where
  | str : String → Val
  | num : ℚ → Val
deriving DecidableEq, Repr

/-- The `ValueTree` of `valuetree.py`: a node value and an ordered list
of children (`get_value` / `get_children` are the projections below). -/
inductive ValueTree where
  | node : Val → List ValueTree → ValueTree

namespace ValueTree

/-- `ValueTree.get_value`. -/
def get_value : ValueTree → Val
  | node v _ => v

/-- `ValueTree.get_children`. -/
def get_children : ValueTree → List ValueTree
  | node _ cs => cs

end ValueTree

/-- Python's `str()` of a node value as the sources use it: a string
renders as itself, an integral number as its decimal digits (with a
leading minus when negative).  Non-integral rationals only arise for
trees no parser produces; they render through `toString`. -/
def valToStr : Val → String
  | .str s => s
  | .num q => if q.den = 1 then toString q.num else toString q

/-- The evaluator's binding store (`var_dict` of `calculator.py`): a
mapping from names to current values.  Key order is never observed by
`evaluate_ast`, so a function models the Python dict. -/
def Store : Type := String → Option ℚ

/-- Python `var_dict[name] = value` on a binding store. -/
def storeInsert (B : Store) (x : String) (v : ℚ) : Store :=
  fun y => if y = x then some v else B y

/-- Errors arising during evaluation.  The first three are the
`ValueError`s raised by `Calculator.evaluate_ast`; the rest model the
host exceptions (`IndexError`, `TypeError`, `ZeroDivisionError`) that
malformed trees or arity mismatches produce.  `nonNumericValue` marks
the one modelling restriction: a `const` node holding a string would
evaluate to that string in Python, which the numeric model rejects. -/
inductive EvalErr where
  | unknownOp : String → EvalErr
  | unboundVar : String → EvalErr
  | notImplemented : String → EvalErr
  | typeError : EvalErr
  | indexError : EvalErr
  | zeroDivision : EvalErr
  | nonNumericValue : EvalErr
deriving DecidableEq, Repr

/-- The dispatch of both backends on the node-type string: each
backend tests the node value against `const`, `apply`, `set` and `get`
(in its own order; the four tests are mutually exclusive) and falls
through to the internal `ValueError` otherwise.  Classifying the value
once keeps each backend a single exhaustive match. -/
inductive NodeKind where
  | constK | applyK | setK | getK | otherK
deriving DecidableEq, Repr

/-- Classify a node value by the string comparisons the backends
perform. -/
def nodeKind (v : Val) : NodeKind :=
  if v = .str "const" then .constK
  else if v = .str "apply" then .applyK
  else if v = .str "set" then .setK
  else if v = .str "get" then .getK
  else .otherK

/-- The compiler's dispatch inside an `apply` node: the two unary
cases tested by name, everything else rendered as a binary
operator. -/
inductive OpKind where
  | negK | sqrK | opOther
deriving DecidableEq, Repr

/-- Classify an operator value the way `Compiler.compile_ast`
tests it. -/
def opKind (v : Val) : OpKind :=
  if v = .str "neg" then .negK
  else if v = .str "sqr" then .sqrK
  else .opOther

/-- Whether `Calculator.op_to_fn.get(op)` yields an implementation:
the table maps the six arithmetic names to functions and maps the
placeholder key to `None`, so exactly these six answer yes. -/
def op_to_fn_defined (v : Val) : Bool :=
  v = .str "neg" || v = .str "+" || v = .str "-" || v = .str "*" ||
    v = .str "/" || v = .str "sqr"

/-- Applying an implemented operator to its evaluated arguments
(`fn(*args)` in `Calculator.evaluate_ast`): the lambdas of `op_to_fn`,
with a `TypeError` on arity mismatch and a `ZeroDivisionError` from
`/`. -/
def applyOp : Val → List ℚ → Except EvalErr ℚ
  | .str "neg", [x] => .ok (-x)
  | .str "+", [x, y] => .ok (x + y)
  | .str "-", [x, y] => .ok (x - y)
  | .str "*", [x, y] => .ok (x * y)
  | .str "/", [x, y] => if y = 0 then .error .zeroDivision else .ok (x / y)
  | .str "sqr", [x] => .ok (x * x)
  | _, _ => .error .typeError

mutual

/-- `Calculator.evaluate_ast`, threading the mutable binding store:
the returned store is the one the caller observes even when the call
raises.  Branch order (`const`, `apply`, `set`, `get`, fall-through
`ValueError`) mirrors the source.  A `set` or `get` whose name child
holds a number is modelled as an immediate `TypeError` (Python would
accept the number as a dict key; no parser tree carries one). -/
def evaluate_ast : ValueTree → Store → Store × Except EvalErr ℚ
  | .node v children, B =>
    match nodeKind v, children with
    | .constK, [] => (B, .error .indexError)
    | .constK, c :: _ =>
      match c.get_value with
      | .num q => (B, .ok q)
      | .str _ => (B, .error .nonNumericValue)
    | .applyK, [] => (B, .error .indexError)
    | .applyK, c0 :: args =>
      if op_to_fn_defined c0.get_value then
        match evalArgs args B with
        | (B₁, .ok vs) => (B₁, applyOp c0.get_value vs)
        | (B₁, .error e) => (B₁, .error e)
      else
        (B, .error (.unknownOp (valToStr c0.get_value)))
    | .setK, [] => (B, .error .indexError)
    | .setK, [_] => (B, .error .indexError)
    | .setK, c0 :: c1 :: _ =>
      match c0.get_value with
      | .str name =>
        match evaluate_ast c1 B with
        | (B₁, .ok value) => (storeInsert B₁ name value, .ok value)
        | (B₁, .error e) => (B₁, .error e)
      | .num _ => (B, .error .typeError)
    | .getK, [] => (B, .error .indexError)
    | .getK, c0 :: _ =>
      match c0.get_value with
      | .str name =>
        match B name with
        | some value => (B, .ok value)
        | none => (B, .error (.unboundVar name))
      | .num _ => (B, .error .typeError)
    | .otherK, _ => (B, .error (.notImplemented (valToStr v)))
termination_by t => sizeOf t

/-- The argument list comprehension of the `apply` branch:
`[self.evaluate_ast(c, var_dict) for c in children[1:]]`, evaluated
left to right, stopping at the first raised exception with the store
reached so far. -/
def evalArgs : List ValueTree → Store → Store × Except EvalErr (List ℚ)
  | [], B => (B, .ok [])
  | t :: ts, B =>
    match evaluate_ast t B with
    | (B₁, .ok v) =>
      match evalArgs ts B₁ with
      | (B₂, .ok vs) => (B₂, .ok (v :: vs))
      | (B₂, .error e) => (B₂, .error e)
    | (B₁, .error e) => (B₁, .error e)
termination_by l => sizeOf l

end

/-- The compiler's generation map (`var_dict` of `compiler.py`): name
to current generation.  Modelled as an insertion-ordered association
list because `Compiler.compile` iterates `sorted(var_dict.items())`
with a stable sort, so insertion order is observable on tied keys. -/
def VarDict : Type := List (String × Nat)

/-- Python `var_dict.get(name)` (first, hence only, matching key). -/
def vdGet (vd : VarDict) (x : String) : Option Nat :=
  match vd with
  | [] => none
  | (y, n) :: rest => if y = x then some n else vdGet rest x

/-- Python `var_dict[name] = n`: replace in place when the key exists,
append otherwise (dict insertion-order semantics). -/
def vdSet (vd : VarDict) (x : String) (n : Nat) : VarDict :=
  match vd with
  | [] => [(x, n)]
  | (y, m) :: rest => if y = x then (y, n) :: rest else (y, m) :: vdSet rest x n

/-- `Compiler.make_gen_name`: generation 0 of a variable is its bare
name, generation `n > 0` is the synthesized temporary name. -/
def make_gen_name (name : String) (gen_num : Nat) : String :=
  if gen_num > 0 then "_" ++ name ++ "_" ++ toString gen_num else name

/-- Errors raised inside `Compiler.compile_ast`: the fall-through
`ValueError` for an unhandled node type, the `IndexError` of a missing
child, and the `TypeError` of concatenating a non-string name or
operator.  `Compiler.compile` catches only the `ValueError`. -/
inductive CompErr where
  | notImplemented : String → CompErr
  | indexError : CompErr
  | typeError : CompErr
deriving DecidableEq, Repr

/-- `Compiler.compile_ast`, threading the generation map and the code
buffer the way the Python mutates them: the returned state is what the
caller observes even when the call raises.  A `set` whose name child
holds a number is modelled as an immediate `TypeError` (Python would
fail at the string concatenation after updating the dict with the
numeric key; no parser tree carries one). -/
def compile_ast : ValueTree → VarDict → List String →
    VarDict × List String × Except CompErr String
  | .node v children, vd, code =>
    match nodeKind v, children with
    | .constK, [] => (vd, code, .error .indexError)
    | .constK, c :: _ => (vd, code, .ok (valToStr c.get_value))
    | .getK, [] => (vd, code, .error .indexError)
    | .getK, c :: _ =>
      match c.get_value with
      | .str name =>
        (vd, code, .ok (make_gen_name name ((vdGet vd name).getD 0)))
      | .num _ => (vd, code, .error .typeError)
    | .setK, [] => (vd, code, .error .indexError)
    | .setK, [_] => (vd, code, .error .indexError)
    | .setK, c0 :: c1 :: _ =>
      match c0.get_value with
      | .str name =>
        match compile_ast c1 vd code with
        | (vd₁, code₁, .ok const_num) =>
          match vdGet vd₁ name with
          | some n =>
            let code_str := "_" ++ name ++ "_" ++ toString (n + 1)
            (vdSet vd₁ name (n + 1),
              code₁ ++ [code_str ++ " = " ++ const_num], .ok code_str)
          | none =>
            let code_str := "_" ++ name ++ "_" ++ toString 1
            (vdSet vd₁ name 1,
              code₁ ++ [code_str ++ " = " ++ const_num], .ok code_str)
        | failure => failure
      | .num _ => (vd, code, .error .typeError)
    | .applyK, [] => (vd, code, .error .indexError)
    | .applyK, c0 :: rest =>
      match opKind c0.get_value, rest with
      | .negK, [] => (vd, code, .error .indexError)
      | .negK, c1 :: _ =>
        match compile_ast c1 vd code with
        | (vd₁, code₁, .ok temp_value) =>
          (vd₁, code₁, .ok ("(-" ++ temp_value ++ ")"))
        | failure => failure
      | .sqrK, [] => (vd, code, .error .indexError)
      | .sqrK, c1 :: _ =>
        match compile_ast c1 vd code with
        | (vd₁, code₁, .ok temp_value) =>
          (vd₁, code₁, .ok ("(" ++ temp_value ++ " ** 2)"))
        | failure => failure
      | .opOther, [] => (vd, code, .error .indexError)
      | .opOther, [c1] =>
        match compile_ast c1 vd code with
        | (vd₁, code₁, .ok _) => (vd₁, code₁, .error .indexError)
        | failure => failure
      | .opOther, c1 :: c2 :: _ =>
        match compile_ast c1 vd code with
        | (vd₁, code₁, .ok digit_1) =>
          match compile_ast c2 vd₁ code₁ with
          | (vd₂, code₂, .ok digit_2) =>
            match c0.get_value with
            | .str operator =>
              (vd₂, code₂,
                .ok ("(" ++ digit_1 ++ " " ++ operator ++ " " ++ digit_2 ++ ")"))
            | .num _ => (vd₂, code₂, .error .typeError)
          | failure => failure
        | failure => failure
    | .otherK, _ => (vd, code, .error (.notImplemented (valToStr v)))
termination_by t => sizeOf t

/-- The sort key of the cleanup loop in `Compiler.compile`: prefix an
underscore unless the name already starts with one, so a bare name
groups with its generations. -/
def key_fn (t : String × Nat) : String :=
  if t.1.take 1 ≠ "_" then "_" ++ t.1 else t.1

/-- Stable insertion of one entry into a key-sorted list: strictly
smaller keys pass, ties keep the earlier entry first, matching the
stability of Python's `sorted`. -/
def sortedInsert (a : String × Nat) : List (String × Nat) → List (String × Nat)
  | [] => [a]
  | b :: l => if key_fn a < key_fn b then a :: b :: l else b :: sortedInsert a l

/-- `sorted(var_dict.items(), key=key_fn)`: a stable sort by `key_fn`
under the lexicographic string order (Python compares strings by code
points, as Lean does). -/
def sortItems : List (String × Nat) → List (String × Nat)
  | [] => []
  | a :: l => sortedInsert a (sortItems l)

/-- The per-variable cleanup block of `Compiler.compile`: for each
variable whose generation exceeds 0, a comment, an assignment of the
bare name from its final generation name, and one delete per
generation from 1 to the final one. -/
def cleanup : List (String × Nat) → List String
  | [] => []
  | (v, gen) :: rest =>
    (if gen > 0 then
      ["# Update and cleanup " ++ v, v ++ " = " ++ make_gen_name v gen] ++
        (List.range gen).map (fun g => "del(" ++ make_gen_name v (g + 1) ++ ")")
    else []) ++ cleanup rest

/-- What a call of `Compiler.compile` leaves behind, as the caller
sees it: the returned value (`None` on success, the caught
`ValueError` as a diagnostic) together with the state of the caller's
code list, or an uncaught exception escaping with the buffer as the
raise left it. -/
inductive CompileOutcome where
  | ok : List String → CompileOutcome
  | diag : String → List String → CompileOutcome
  | exn : CompErr → List String → CompileOutcome
deriving DecidableEq, Repr

/-- The diagnostic text of the `ValueError` that `Compiler.compile`
returns after catching it (the message built in `compile_ast`;
quotation marks around the node type are omitted in the model). -/
def notImplementedMsg (ntype : String) : String :=
  "Evaluation internal error, AST node type " ++ ntype ++ " not implemented"

/-- `Compiler.compile` after a diagnostic-free parse: remember the
buffer length, append the two comment statements, run `compile_ast`
with a fresh generation map, append the `_result` binding, and emit
the sorted cleanup blocks; on a caught `ValueError` truncate the
buffer back and return the diagnostic instead (the `var_dict[v] = 0`
write inside the cleanup loop is dropped: the map is discarded). -/
def compileTop (ast : ValueTree) (expr_str : String) (code : List String) :
    CompileOutcome :=
  match compile_ast ast [] (code ++ ["# code for:", "# " ++ expr_str]) with
  | (var_dict, code₂, .ok last_expr) =>
    .ok ((code₂ ++ ["_result = " ++ last_expr]) ++ cleanup (sortItems var_dict))
  | (_, code₂, .error (.notImplemented ntype)) =>
    .diag (notImplementedMsg ntype)
      (if code₂.length > code.length then code₂.take code.length else code₂)
  | (_, code₂, .error e) => .exn e code₂

/-!
A structured mirror of the emitted code.  `compile_ast` builds Python
statements as strings; to execute them the development mirrors the
emission with structured statements (`compileS`, `compileTopS`) and
proves the rendering of the mirror equal, statement by statement, to
the strings `compile_ast` appends.  The execution semantics of the
generated sublanguage (assignments, deletes, comments, and the fully
parenthesized expressions the compiler prints) is given on the
structured form.
-/

/-- The expressions `compile_ast` prints: literals from `const` nodes,
names, the three compound renderings. -/
inductive PExpr where
  | const : Val → PExpr
  | name : String → PExpr
  | neg : PExpr → PExpr
  | sq : PExpr → PExpr
  | bin : String → PExpr → PExpr → PExpr

/-- The statements `compile` appends: comment lines, single
assignments and deletes. -/
inductive PStmt where
  | comment : String → PStmt
  | assign : String → PExpr → PStmt
  | delete : String → PStmt

/-- Rendering of a structured expression: exactly the string
`compile_ast` builds for it. -/
def renderP : PExpr → String
  | .const v => valToStr v
  | .name x => x
  | .neg e => "(-" ++ renderP e ++ ")"
  | .sq e => "(" ++ renderP e ++ " ** 2)"
  | .bin op a b => "(" ++ renderP a ++ " " ++ op ++ " " ++ renderP b ++ ")"

/-- Rendering of a structured statement: exactly the string `compile`
appends for it. -/
def renderStmt : PStmt → String
  | .comment s => s
  | .assign x e => x ++ " = " ++ renderP e
  | .delete x => "del(" ++ x ++ ")"

/-- `compile_ast` on the structured mirror: identical control flow,
emitting `PStmt`/`PExpr` instead of their renderings. -/
def compileS : ValueTree → VarDict → List PStmt →
    VarDict × List PStmt × Except CompErr PExpr
  | .node v children, vd, code =>
    match nodeKind v, children with
    | .constK, [] => (vd, code, .error .indexError)
    | .constK, c :: _ => (vd, code, .ok (.const c.get_value))
    | .getK, [] => (vd, code, .error .indexError)
    | .getK, c :: _ =>
      match c.get_value with
      | .str name =>
        (vd, code, .ok (.name (make_gen_name name ((vdGet vd name).getD 0))))
      | .num _ => (vd, code, .error .typeError)
    | .setK, [] => (vd, code, .error .indexError)
    | .setK, [_] => (vd, code, .error .indexError)
    | .setK, c0 :: c1 :: _ =>
      match c0.get_value with
      | .str name =>
        match compileS c1 vd code with
        | (vd₁, code₁, .ok const_num) =>
          match vdGet vd₁ name with
          | some n =>
            let code_str := "_" ++ name ++ "_" ++ toString (n + 1)
            (vdSet vd₁ name (n + 1),
              code₁ ++ [.assign code_str const_num], .ok (.name code_str))
          | none =>
            let code_str := "_" ++ name ++ "_" ++ toString 1
            (vdSet vd₁ name 1,
              code₁ ++ [.assign code_str const_num], .ok (.name code_str))
        | failure => failure
      | .num _ => (vd, code, .error .typeError)
    | .applyK, [] => (vd, code, .error .indexError)
    | .applyK, c0 :: rest =>
      match opKind c0.get_value, rest with
      | .negK, [] => (vd, code, .error .indexError)
      | .negK, c1 :: _ =>
        match compileS c1 vd code with
        | (vd₁, code₁, .ok temp_value) => (vd₁, code₁, .ok (.neg temp_value))
        | failure => failure
      | .sqrK, [] => (vd, code, .error .indexError)
      | .sqrK, c1 :: _ =>
        match compileS c1 vd code with
        | (vd₁, code₁, .ok temp_value) => (vd₁, code₁, .ok (.sq temp_value))
        | failure => failure
      | .opOther, [] => (vd, code, .error .indexError)
      | .opOther, [c1] =>
        match compileS c1 vd code with
        | (vd₁, code₁, .ok _) => (vd₁, code₁, .error .indexError)
        | failure => failure
      | .opOther, c1 :: c2 :: _ =>
        match compileS c1 vd code with
        | (vd₁, code₁, .ok digit_1) =>
          match compileS c2 vd₁ code₁ with
          | (vd₂, code₂, .ok digit_2) =>
            match c0.get_value with
            | .str operator =>
              (vd₂, code₂, .ok (.bin operator digit_1 digit_2))
            | .num _ => (vd₂, code₂, .error .typeError)
          | failure => failure
        | failure => failure
    | .otherK, _ => (vd, code, .error (.notImplemented (valToStr v)))
termination_by t => sizeOf t

/-- The cleanup blocks on the structured mirror. -/
def cleanupS : List (String × Nat) → List PStmt
  | [] => []
  | (v, gen) :: rest =>
    (if gen > 0 then
      [.comment ("# Update and cleanup " ++ v),
        .assign v (.name (make_gen_name v gen))] ++
        (List.range gen).map (fun g => .delete (make_gen_name v (g + 1)))
    else []) ++ cleanupS rest

/-- `Compiler.compile` on the structured mirror. -/
inductive CompileOutcomeS where
  | ok : List PStmt → CompileOutcomeS
  | diag : String → List PStmt → CompileOutcomeS
  | exn : CompErr → List PStmt → CompileOutcomeS

/-- Top-level structured compile, mirroring `compileTop`. -/
def compileTopS (ast : ValueTree) (expr_str : String) (code : List PStmt) :
    CompileOutcomeS :=
  match compileS ast [] (code ++ [.comment "# code for:", .comment ("# " ++ expr_str)]) with
  | (var_dict, code₂, .ok last_expr) =>
    .ok ((code₂ ++ [.assign "_result" last_expr]) ++ cleanupS (sortItems var_dict))
  | (_, code₂, .error (.notImplemented ntype)) =>
    .diag (notImplementedMsg ntype)
      (if code₂.length > code.length then code₂.take code.length else code₂)
  | (_, code₂, .error e) => .exn e code₂

/-- The execution context the generated program runs in (the `locals`
dict that `comptest.py` passes to `exec`). -/
def Ctx : Type := String → Option ℚ

/-- Assignment in the execution context. -/
def ctxInsert (C : Ctx) (x : String) (v : ℚ) : Ctx :=
  fun y => if y = x then some v else C y

/-- `del(x)` in the execution context. -/
def ctxRemove (C : Ctx) (x : String) : Ctx :=
  fun y => if y = x then none else C y

/-- Failures of the target-language interpreter: an unbound name, a
zero division, a non-numeric literal, or a rendering (such as the
infix use of an unknown function name) that is not executable. -/
inductive ExecErr where
  | nameError : String → ExecErr
  | zeroDivision : ExecErr
  | notExecutable : ExecErr
deriving DecidableEq, Repr

/-- Evaluation of a generated expression by the target interpreter:
Python semantics on the sublanguage the compiler prints (`**  2` is
squaring; `/` is division with a zero check). -/
def evalP : PExpr → Ctx → Except ExecErr ℚ
  | .const v, _ =>
    match v with
    | .num q => .ok q
    | .str _ => .error .notExecutable
  | .name x, C =>
    match C x with
    | some q => .ok q
    | none => .error (.nameError x)
  | .neg e, C =>
    match evalP e C with
    | .ok q => .ok (-q)
    | .error err => .error err
  | .sq e, C =>
    match evalP e C with
    | .ok q => .ok (q * q)
    | .error err => .error err
  | .bin op a b, C =>
    match evalP a C with
    | .ok x =>
      match evalP b C with
      | .ok y =>
        if op = "+" then .ok (x + y)
        else if op = "-" then .ok (x - y)
        else if op = "*" then .ok (x * y)
        else if op = "/" then
          if y = 0 then .error .zeroDivision else .ok (x / y)
        else .error .notExecutable
      | .error err => .error err
    | .error err => .error err

/-- One step of the target interpreter. -/
def execStmt : PStmt → Ctx → Except ExecErr Ctx
  | .comment _, C => .ok C
  | .assign x e, C =>
    match evalP e C with
    | .ok v => .ok (ctxInsert C x v)
    | .error err => .error err
  | .delete x, C =>
    match C x with
    | some _ => .ok (ctxRemove C x)
    | none => .error (.nameError x)

/-- Running a generated statement list in order, stopping at the first
failure. -/
def execProg : List PStmt → Ctx → Except ExecErr Ctx
  | [], C => .ok C
  | s :: rest, C =>
    match execStmt s C with
    | .ok C₁ => execProg rest C₁
    | .error err => .error err

/-!
The parser boundary.  The ply grammar of `exprparser.py` is in the
sources; the shift-reduce engine is the external `ply` library.  The
trees a diagnostic-free parse can produce are captured here as an
inductive predicate following the grammar rules (`p_statement_*`,
`p_expression_*`, `p_fn_apply*`), and the lexical class of `t_NAME`
is transcribed from its regular expression.
-/

/-- A character admitted at the start of `t_NAME`
(`[a-zA-Z_]`). -/
def isNameStart (c : Char) : Bool :=
  (('a' ≤ c && c ≤ 'z') || ('A' ≤ c && c ≤ 'Z') || c = '_')

/-- A character admitted after the start of `t_NAME`
(`[a-zA-Z0-9_]`). -/
def isNameChar (c : Char) : Bool :=
  (('a' ≤ c && c ≤ 'z') || ('A' ≤ c && c ≤ 'Z') ||
    ('0' ≤ c && c ≤ '9') || c = '_')

/-- Membership in the lexical class of `t_NAME`:
`[a-zA-Z_][a-zA-Z0-9_]*`. -/
def IsName (s : String) : Bool :=
  match s.data with
  | [] => false
  | c :: cs => isNameStart c && cs.all isNameChar

/-- The binary operator literals of the grammar
(`p_expression_binop`). -/
def IsBinOp (s : String) : Bool :=
  s = "+" || s = "-" || s = "*" || s = "/"

/-- Shorthand for the name-leaf trees the grammar rules build
(`ValueTree(p[1])` for a `NAME` token). -/
def leaf (s : String) : ValueTree := .node (.str s) []

/-- Trees the `expression` nonterminal can produce in a
diagnostic-free parse: one constructor per grammar rule (parenthesized
grouping returns its inner tree and adds nothing). -/
inductive PExprTree : ValueTree → Prop where
  | const (n : ℕ) :
      PExprTree (.node (.str "const") [.node (.num (n : ℚ)) []])
  | get (x : String) (hx : IsName x) :
      PExprTree (.node (.str "get") [leaf x])
  | set (x : String) (e : ValueTree) (hx : IsName x) (he : PExprTree e) :
      PExprTree (.node (.str "set") [leaf x, e])
  | binop (op : String) (a b : ValueTree) (hop : IsBinOp op)
      (ha : PExprTree a) (hb : PExprTree b) :
      PExprTree (.node (.str "apply") [leaf op, a, b])
  | neg (a : ValueTree) (ha : PExprTree a) :
      PExprTree (.node (.str "apply") [leaf "neg", a])
  | call (f : String) (args : List ValueTree) (hf : IsName f)
      (hargs : ∀ a ∈ args, PExprTree a) :
      PExprTree (.node (.str "apply") (leaf f :: args))

/-- The tree of `p_statement_empty`: what parsing an empty input
yields. -/
def passTree : ValueTree := .node (.str "pass") []

/-- Trees the `statement` start symbol can produce in a
diagnostic-free parse. -/
def ParsedTree (t : ValueTree) : Prop := PExprTree t ∨ t = passTree

/-- A name that can never collide with the compiler's synthesized
temporaries or with the reserved result name: nonempty and not
starting with an underscore. -/
def cleanName (x : String) : Bool :=
  match x.data with
  | [] => false
  | c :: _ => c ≠ '_'

/-- Whether one node, viewed in isolation, only names clean variables
(see `varsClean`). -/
def nodeVarsClean (v : Val) (children : List ValueTree) : Bool :=
  if v = .str "get" ∨ v = .str "set" then
    match children with
    | .node (.str x) _ :: _ => cleanName x
    | _ => true
  else true

mutual

/-- Whether every variable name a tree reads or assigns satisfies
`cleanName` (the name child of each `get` and `set` node). -/
def varsClean : ValueTree → Bool
  | .node v children => nodeVarsClean v children && varsCleanList children
termination_by t => sizeOf t

/-- `varsClean` over a list of children. -/
def varsCleanList : List ValueTree → Bool
  | [] => true
  | t :: ts => varsClean t && varsCleanList ts
termination_by l => sizeOf l

end

/-- A binding store none of whose bound names can collide with the
compiler's synthesized temporaries or the reserved result name. -/
def CleanStore (B : Store) : Prop :=
  ∀ x, B x ≠ none → cleanName x

/-- `ExprParser.unparse`.  A leaf returns `str()` of its value.  For
any node with children the source reads `self.fn_to_op`, and no class
in the `ExprParser` hierarchy defines that attribute (it lives on the
unrelated `Calculator` class), so Python raises `AttributeError`
before producing anything. -/
inductive UnparseErr where
  | attributeError : UnparseErr
deriving DecidableEq, Repr

/-- The observable behaviour of `ExprParser.unparse` on a tree. -/
def unparse (t : ValueTree) : Except UnparseErr String :=
  match t.get_children with
  | [] => .ok (valToStr t.get_value)
  | _ :: _ => .error .attributeError

/-!
Shorthands for the tree shapes the grammar rules construct, used
throughout the statements below.
-/

/-- The tree of `p_expression_number`. -/
def constT (n : ℕ) : ValueTree := .node (.str "const") [.node (.num (n : ℚ)) []]

/-- The tree of `p_expression_name`. -/
def getT (x : String) : ValueTree := .node (.str "get") [leaf x]

/-- The tree of `p_expression_assign`. -/
def setT (x : String) (e : ValueTree) : ValueTree := .node (.str "set") [leaf x, e]

/-- The tree of `p_expression_binop`. -/
def binT (op : String) (a b : ValueTree) : ValueTree :=
  .node (.str "apply") [leaf op, a, b]

/-- The tree of `p_expression_uminus`. -/
def negT (a : ValueTree) : ValueTree := .node (.str "apply") [leaf "neg", a]

/-- The tree of `p_fn_apply` / `p_fn_apply_0`. -/
def callT (f : String) (args : List ValueTree) : ValueTree :=
  .node (.str "apply") (leaf f :: args)

/-- Whether a node is itself a `set` of the name `x` (the name child
inspected without recursion). -/
def isSetOf (v : Val) (children : List ValueTree) (x : String) : Bool :=
  v = .str "set" &&
    match children with
    | .node (.str y) _ :: _ => y = x
    | _ => false

mutual

/-- Whether a tree contains a `set` node targeting the given name
(whose evaluation, if reached, would write that name). -/
def setsVar : ValueTree → String → Bool
  | .node v children, x => isSetOf v children x || setsVarList children x
termination_by t => sizeOf t

/-- `setsVar` over a list of children. -/
def setsVarList : List ValueTree → String → Bool
  | [], _ => false
  | t :: ts, x => setsVar t x || setsVarList ts x
termination_by l => sizeOf l

end

/-- Whether one node, viewed in isolation, carries at least the
children its compilation consumes (see `wellArity`). -/
def arityOk (v : Val) (children : List ValueTree) : Bool :=
  if v = .str "apply" then
    match children with
    | [] => false
    | c0 :: rest =>
      if c0.get_value = .str "neg" || c0.get_value = .str "sqr" then
        decide (rest.length ≥ 1)
      else decide (rest.length ≥ 2)
  else true

mutual

/-- Whether every `apply` node of a tree carries at least the children
its compilation consumes: one argument under `neg` or `sqr`, two under
any other operator.  `compile_ast` reads exactly these children and
raises `IndexError` when one is missing. -/
def wellArity : ValueTree → Bool
  | .node v children => arityOk v children && wellArityList children
termination_by t => sizeOf t

/-- `wellArity` over a list of children. -/
def wellArityList : List ValueTree → Bool
  | [] => true
  | t :: ts => wellArity t && wellArityList ts
termination_by l => sizeOf l

end

/-- The numeric value of a decimal digit character. -/
def charVal (c : Char) : ℕ := c.toNat - 48

/-- The number a list of decimal digit characters denotes, most
significant first (used to invert `Nat.toDigits`). -/
def digitsVal (l : List Char) : ℕ :=
  l.foldl (fun acc c => acc * 10 + charVal c) 0

/-- One context preserves another when every bound name keeps its
value: the relation under which the compiler's emitted sub-expressions
stay evaluable, because later emitted statements only bind fresh
generation names. -/
def Preserves (C D : Ctx) : Prop :=
  ∀ n, C n ≠ none → D n = C n

/-- The simulation invariant tying the compiler's generation map `vd`,
the evaluator's store `B`, and the execution context `C` of the
partially run generated program (`B₀` is the store both started
from):
1. the current-generation name of every clean variable holds its
   evaluator value (generation 0 being the bare name);
2. the generation names of a clean variable are bound exactly up to
   its current generation;
3. every bound non-clean name is a live generation name;
4. the generation map only holds clean names,
5. with pairwise distinct keys,
6. all at generation at least 1. -/
def ExecInv (vd : VarDict) (B : Store) (C : Ctx) : Prop :=
  (∀ x, cleanName x = true → B x = C (make_gen_name x ((vdGet vd x).getD 0))) ∧
  (∀ x g, cleanName x = true → 1 ≤ g →
    (g ≤ (vdGet vd x).getD 0 ↔ C (make_gen_name x g) ≠ none)) ∧
  (∀ n, cleanName n = false → C n ≠ none →
    ∃ x g, cleanName x = true ∧ 1 ≤ g ∧ g ≤ (vdGet vd x).getD 0 ∧
      n = make_gen_name x g) ∧
  (∀ x, vdGet vd x ≠ none → cleanName x = true) ∧
  List.Nodup (vd.map Prod.fst) ∧
  (∀ x n, vdGet vd x = some n → 1 ≤ n)

/-!
Groundwork: decimal digit strings.  `make_gen_name` glues names and
`str(gen_num)` together; recovering the pair from the glued string
needs that `Nat.toDigits` produces a nonempty list of digit characters
and is injective.
-/

theorem toDigitsCore_append (b : ℕ) :
    ∀ (f n : ℕ) (ds : List Char),
      Nat.toDigitsCore b f n ds = Nat.toDigitsCore b f n [] ++ ds := by
  intro f
  induction f with
  | zero => intro n ds; simp [Nat.toDigitsCore]
  | succ f ih =>
    intro n ds
    simp only [Nat.toDigitsCore]
    by_cases h : n / b = 0
    · simp [h]
    · simp only [h, if_false]
      rw [ih (n / b) (Nat.digitChar (n % b) :: ds),
        ih (n / b) [Nat.digitChar (n % b)]]
      simp

theorem digitChar_isDigit {m : ℕ} (h : m < 10) :
    (Nat.digitChar m).isDigit = true := by
  interval_cases m <;> decide

theorem toDigitsCore_digits (b : ℕ) (hb : b = 10) :
    ∀ (f n : ℕ) (ds : List Char) (c : Char),
      c ∈ Nat.toDigitsCore b f n ds → c ∈ ds ∨ c.isDigit = true := by
  subst hb
  intro f
  induction f with
  | zero => intro n ds c hc; exact Or.inl hc
  | succ f ih =>
    intro n ds c hc
    simp only [Nat.toDigitsCore] at hc
    by_cases h : n / 10 = 0
    · simp only [h, if_true] at hc
      rcases List.mem_cons.mp hc with h1 | h1
      · exact Or.inr (h1 ▸ digitChar_isDigit (Nat.mod_lt n (by norm_num)))
      · exact Or.inl h1
    · simp only [h, if_false] at hc
      rcases ih (n / 10) (Nat.digitChar (n % 10) :: ds) c hc with h1 | h1
      · rcases List.mem_cons.mp h1 with h2 | h2
        · exact Or.inr (h2 ▸ digitChar_isDigit (Nat.mod_lt n (by norm_num)))
        · exact Or.inl h2
      · exact Or.inr h1

theorem toDigits_digits (n : ℕ) (c : Char) (hc : c ∈ Nat.toDigits 10 n) :
    c.isDigit = true := by
  rcases toDigitsCore_digits 10 rfl (n + 1) n [] c hc with h | h
  · exact absurd h (List.not_mem_nil c)
  · exact h

theorem toDigits_ne_nil (n : ℕ) : Nat.toDigits 10 n ≠ [] := by
  unfold Nat.toDigits Nat.toDigitsCore
  by_cases h : n / 10 = 0
  · simp [h]
  · simp only [h, if_false]
    rw [toDigitsCore_append]
    simp

theorem toDigitsCore_fuel (b : ℕ) (hb : 2 ≤ b) :
    ∀ (n f₁ f₂ : ℕ), n < f₁ → n < f₂ →
      Nat.toDigitsCore b f₁ n [] = Nat.toDigitsCore b f₂ n [] := by
  intro n
  induction n using Nat.strong_induction_on with
  | _ n ih =>
    intro f₁ f₂ h₁ h₂
    match f₁, h₁ with
    | f₁ + 1, h₁ =>
    match f₂, h₂ with
    | f₂ + 1, h₂ =>
    simp only [Nat.toDigitsCore]
    by_cases h : n / b = 0
    · simp [h]
    · simp only [h, if_false]
      have hnb : n / b < n := by
        apply Nat.div_lt_self
        · rcases Nat.eq_zero_or_pos n with h0 | h0
          · exact absurd (by simp [h0]) h
          · exact h0
        · omega
      rw [toDigitsCore_append b f₁ (n / b), toDigitsCore_append b f₂ (n / b),
        ih (n / b) hnb f₁ f₂ (by omega) (by omega)]

theorem digitsVal_append_singleton (l : List Char) (c : Char) :
    digitsVal (l ++ [c]) = digitsVal l * 10 + charVal c := by
  simp [digitsVal, List.foldl_append]

theorem charVal_digitChar {m : ℕ} (h : m < 10) :
    charVal (Nat.digitChar m) = m := by
  interval_cases m <;> decide

theorem digitsVal_toDigits (n : ℕ) : digitsVal (Nat.toDigits 10 n) = n := by
  induction n using Nat.strong_induction_on with
  | _ n ih =>
    unfold Nat.toDigits
    simp only [Nat.toDigitsCore]
    by_cases h : n / 10 = 0
    · simp only [h, if_true]
      have hn : n < 10 := by omega
      simp [digitsVal, charVal_digitChar (Nat.mod_lt n (by norm_num) : n % 10 < 10)]
      omega
    · simp only [h, if_false]
      have hnb : n / 10 < n := Nat.div_lt_self (by omega) (by norm_num)
      rw [toDigitsCore_append 10 n (n / 10)]
      rw [toDigitsCore_fuel 10 (by norm_num) (n / 10) n (n / 10 + 1) (by omega) (by omega)]
      rw [show Nat.toDigitsCore 10 (n / 10 + 1) (n / 10) [] = Nat.toDigits 10 (n / 10) from rfl]
      rw [digitsVal_append_singleton, ih (n / 10) hnb,
        charVal_digitChar (Nat.mod_lt n (by norm_num))]
      omega

theorem natToString_injective (m n : ℕ) (h : toString m = toString n) : m = n := by
  have hd : Nat.toDigits 10 m = Nat.toDigits 10 n := by
    have : (Nat.toDigits 10 m).asString = (Nat.toDigits 10 n).asString := h
    exact congrArg String.data this
  calc m = digitsVal (Nat.toDigits 10 m) := (digitsVal_toDigits m).symm
    _ = digitsVal (Nat.toDigits 10 n) := by rw [hd]
    _ = n := digitsVal_toDigits n

theorem make_gen_name_pos (x : String) (i : ℕ) (hi : 1 ≤ i) :
    make_gen_name x i = "_" ++ x ++ "_" ++ toString i := by
  unfold make_gen_name
  simp [show i > 0 from hi]

theorem make_gen_name_data (x : String) (i : ℕ) (hi : 1 ≤ i) :
    (make_gen_name x i).data = '_' :: (x.data ++ '_' :: Nat.toDigits 10 i) := by
  rw [make_gen_name_pos x i hi]
  simp [String.data_append]
  rfl

theorem append_cons_first {α : Type} (a : α) :
    ∀ (u₁ : List α) (w₁ : List α) (u₂ : List α) (w₂ : List α),
      a ∉ u₁ → a ∉ u₂ → u₁ ++ a :: w₁ = u₂ ++ a :: w₂ → u₁ = u₂ ∧ w₁ = w₂ := by
  intro u₁
  induction u₁ with
  | nil =>
    intro w₁ u₂ w₂ _ hu₂ h
    match u₂ with
    | [] => simpa using h
    | b :: u₂ =>
      simp only [List.nil_append, List.cons_append, List.cons.injEq] at h
      exact absurd (h.1 ▸ List.mem_cons_self b u₂) hu₂
  | cons b u₁ ih =>
    intro w₁ u₂ w₂ hu₁ hu₂ h
    match u₂ with
    | [] =>
      simp only [List.cons_append, List.nil_append, List.cons.injEq] at h
      exact absurd (h.1.symm ▸ List.mem_cons_self b u₁) hu₁
    | c :: u₂ =>
      simp only [List.cons_append, List.cons.injEq] at h
      have := ih w₁ u₂ w₂ (fun hm => hu₁ (List.mem_cons_of_mem b hm))
        (fun hm => hu₂ (List.mem_cons_of_mem c hm)) h.2
      exact ⟨by rw [h.1, this.1], this.2⟩

theorem underscore_not_in_digits (n : ℕ) : '_' ∉ Nat.toDigits 10 n := by
  intro hm
  have := toDigits_digits n '_' hm
  simp [Char.isDigit] at this

theorem make_gen_name_inj (x y : String) (i j : ℕ) (hi : 1 ≤ i) (hj : 1 ≤ j)
    (h : make_gen_name x i = make_gen_name y j) : x = y ∧ i = j := by
  have hd := congrArg String.data h
  rw [make_gen_name_data x i hi, make_gen_name_data y j hj] at hd
  simp only [List.cons.injEq, true_and] at hd
  have hr := congrArg List.reverse hd
  simp only [List.reverse_append, List.reverse_cons] at hr
  rw [List.append_assoc, List.append_assoc] at hr
  have hsplit := append_cons_first '_' (Nat.toDigits 10 i).reverse
    (x.data.reverse) (Nat.toDigits 10 j).reverse (y.data.reverse)
    (by simpa using underscore_not_in_digits i)
    (by simpa using underscore_not_in_digits j)
    (by simpa using hr)
  constructor
  · apply String.ext
    have := congrArg List.reverse hsplit.2
    simpa using this
  · have hdi : Nat.toDigits 10 i = Nat.toDigits 10 j := by
      have := congrArg List.reverse hsplit.1
      simpa using this
    calc i = digitsVal (Nat.toDigits 10 i) := (digitsVal_toDigits i).symm
      _ = digitsVal (Nat.toDigits 10 j) := by rw [hdi]
      _ = j := digitsVal_toDigits j

theorem toDigits_head_digit (n : ℕ) :
    ∃ c rest, Nat.toDigits 10 n = c :: rest ∧ c.isDigit = true := by
  rcases h : Nat.toDigits 10 n with _ | ⟨c, rest⟩
  · exact absurd h (toDigits_ne_nil n)
  · exact ⟨c, rest, rfl, toDigits_digits n c (h ▸ List.mem_cons_self c rest)⟩

theorem cleanName_ne_gen (y x : String) (i : ℕ) (hy : cleanName y = true)
    (hi : 1 ≤ i) : y ≠ make_gen_name x i := by
  intro h
  have hd := congrArg String.data h
  rw [make_gen_name_data x i hi] at hd
  unfold cleanName at hy
  rw [hd] at hy
  simp at hy

theorem make_gen_name_ne_result (x : String) (i : ℕ) (hi : 1 ≤ i) :
    make_gen_name x i ≠ "_result" := by
  intro h
  have hd := congrArg String.data h
  rw [make_gen_name_data x i hi] at hd
  have hr := congrArg List.reverse hd
  rcases toDigits_head_digit i with ⟨c, rest, hcr, hcd⟩
  rw [List.reverse_cons, List.reverse_append, List.reverse_cons, hcr] at hr
  simp only [List.reverse_cons, List.append_assoc] at hr
  have : (rest.reverse ++ [c]) ++ ('_' :: x.data.reverse ++ ['_']) =
      "_result".data.reverse := by simpa using hr
  rcases hrest : rest.reverse with _ | ⟨d, ds⟩
  · rw [hrest] at this
    simp only [List.nil_append, List.cons_append] at this
    have hc : c = 't' := by
      have := congrArg List.head? this
      simpa using this
    rw [hc] at hcd
    simp [Char.isDigit] at hcd
  · rw [hrest] at this
    simp only [List.cons_append] at this
    have hc : d = 't' := by
      have := congrArg List.head? this
      simpa using this
    have hd' : d ∈ rest := by
      have : d ∈ rest.reverse := hrest ▸ List.mem_cons_self d ds
      simpa using this
    have := toDigits_digits i d (hcr ▸ List.mem_cons_of_mem c hd')
    rw [hc] at this
    simp [Char.isDigit] at this

theorem cleanName_ne_result (x : String) (hx : cleanName x = true) :
    x ≠ "_result" := by
  intro h
  rw [h] at hx
  simp [cleanName] at hx

/-!
Shape equations: one unconditional unfolding lemma per node shape for
the two backends and the structured mirror, used both in the general
inductions and to evaluate concrete programs.
-/

theorem evaluate_ast_constE (c : ValueTree) (rest : List ValueTree) (B : Store) :
    evaluate_ast (.node (.str "const") (c :: rest)) B =
      (match c.get_value with
      | .num q => (B, .ok q)
      | .str _ => (B, .error .nonNumericValue)) := by
  rw [evaluate_ast.eq_def]
  simp [nodeKind]

theorem evaluate_ast_applyE (c0 : ValueTree) (args : List ValueTree) (B : Store) :
    evaluate_ast (.node (.str "apply") (c0 :: args)) B =
      (if op_to_fn_defined c0.get_value then
        match evalArgs args B with
        | (B₁, .ok vs) => (B₁, applyOp c0.get_value vs)
        | (B₁, .error e) => (B₁, .error e)
      else
        (B, .error (.unknownOp (valToStr c0.get_value)))) := by
  rw [evaluate_ast.eq_def]
  simp [nodeKind]

theorem evaluate_ast_setE (c0 c1 : ValueTree) (rest : List ValueTree) (B : Store) :
    evaluate_ast (.node (.str "set") (c0 :: c1 :: rest)) B =
      (match c0.get_value with
      | .str name =>
        match evaluate_ast c1 B with
        | (B₁, .ok value) => (storeInsert B₁ name value, .ok value)
        | (B₁, .error e) => (B₁, .error e)
      | .num _ => (B, .error .typeError)) := by
  rw [evaluate_ast.eq_def]
  simp [nodeKind]

theorem evaluate_ast_getE (c0 : ValueTree) (rest : List ValueTree) (B : Store) :
    evaluate_ast (.node (.str "get") (c0 :: rest)) B =
      (match c0.get_value with
      | .str name =>
        match B name with
        | some value => (B, .ok value)
        | none => (B, .error (.unboundVar name))
      | .num _ => (B, .error .typeError)) := by
  rw [evaluate_ast.eq_def]
  simp [nodeKind]

theorem evaluate_ast_otherE (v : Val) (children : List ValueTree) (B : Store)
    (h : nodeKind v = .otherK) :
    evaluate_ast (.node v children) B = (B, .error (.notImplemented (valToStr v))) := by
  rw [evaluate_ast.eq_def]
  cases children with
  | nil => simp [h]
  | cons a l => cases l with
    | nil => simp [h]
    | cons b l' => simp [h]

theorem evalArgs_nil (B : Store) : evalArgs [] B = (B, .ok []) := by
  rw [evalArgs.eq_def]

theorem evalArgs_cons (t : ValueTree) (ts : List ValueTree) (B : Store) :
    evalArgs (t :: ts) B =
      (match evaluate_ast t B with
      | (B₁, .ok v) =>
        match evalArgs ts B₁ with
        | (B₂, .ok vs) => (B₂, .ok (v :: vs))
        | (B₂, .error e) => (B₂, .error e)
      | (B₁, .error e) => (B₁, .error e)) := by
  rw [evalArgs.eq_def]

theorem compile_ast_constE (c : ValueTree) (rest : List ValueTree)
    (vd : VarDict) (code : List String) :
    compile_ast (.node (.str "const") (c :: rest)) vd code =
      (vd, code, .ok (valToStr c.get_value)) := by
  rw [compile_ast.eq_def]
  simp [nodeKind]

theorem compile_ast_getE (c : ValueTree) (rest : List ValueTree)
    (vd : VarDict) (code : List String) :
    compile_ast (.node (.str "get") (c :: rest)) vd code =
      (match c.get_value with
      | .str name =>
        (vd, code, .ok (make_gen_name name ((vdGet vd name).getD 0)))
      | .num _ => (vd, code, .error .typeError)) := by
  rw [compile_ast.eq_def]
  simp [nodeKind]

theorem compile_ast_setE (c0 c1 : ValueTree) (rest : List ValueTree)
    (vd : VarDict) (code : List String) :
    compile_ast (.node (.str "set") (c0 :: c1 :: rest)) vd code =
      (match c0.get_value with
      | .str name =>
        match compile_ast c1 vd code with
        | (vd₁, code₁, .ok const_num) =>
          match vdGet vd₁ name with
          | some n =>
            (vdSet vd₁ name (n + 1),
              code₁ ++ ["_" ++ name ++ "_" ++ toString (n + 1) ++ " = " ++ const_num],
              .ok ("_" ++ name ++ "_" ++ toString (n + 1)))
          | none =>
            (vdSet vd₁ name 1,
              code₁ ++ ["_" ++ name ++ "_" ++ toString 1 ++ " = " ++ const_num],
              .ok ("_" ++ name ++ "_" ++ toString 1))
        | failure => failure
      | .num _ => (vd, code, .error .typeError)) := by
  rw [compile_ast.eq_def]
  simp [nodeKind]

theorem compile_ast_apply_negE (c0 c1 : ValueTree) (rest : List ValueTree)
    (vd : VarDict) (code : List String) (h : opKind c0.get_value = .negK) :
    compile_ast (.node (.str "apply") (c0 :: c1 :: rest)) vd code =
      (match compile_ast c1 vd code with
      | (vd₁, code₁, .ok temp_value) =>
        (vd₁, code₁, .ok ("(-" ++ temp_value ++ ")"))
      | failure => failure) := by
  rw [compile_ast.eq_def]
  simp [nodeKind, h]

theorem compile_ast_apply_sqrE (c0 c1 : ValueTree) (rest : List ValueTree)
    (vd : VarDict) (code : List String) (h : opKind c0.get_value = .sqrK) :
    compile_ast (.node (.str "apply") (c0 :: c1 :: rest)) vd code =
      (match compile_ast c1 vd code with
      | (vd₁, code₁, .ok temp_value) =>
        (vd₁, code₁, .ok ("(" ++ temp_value ++ " ** 2)"))
      | failure => failure) := by
  rw [compile_ast.eq_def]
  simp [nodeKind, h]

theorem compile_ast_apply_binE (c0 c1 c2 : ValueTree) (rest : List ValueTree)
    (vd : VarDict) (code : List String) (h : opKind c0.get_value = .opOther) :
    compile_ast (.node (.str "apply") (c0 :: c1 :: c2 :: rest)) vd code =
      (match compile_ast c1 vd code with
      | (vd₁, code₁, .ok digit_1) =>
        match compile_ast c2 vd₁ code₁ with
        | (vd₂, code₂, .ok digit_2) =>
          match c0.get_value with
          | .str operator =>
            (vd₂, code₂,
              .ok ("(" ++ digit_1 ++ " " ++ operator ++ " " ++ digit_2 ++ ")"))
          | .num _ => (vd₂, code₂, .error .typeError)
        | failure => failure
      | failure => failure) := by
  rw [compile_ast.eq_def]
  simp [nodeKind, h]

theorem compile_ast_apply_un1E (c0 c1 : ValueTree)
    (vd : VarDict) (code : List String) (h : opKind c0.get_value = .opOther) :
    compile_ast (.node (.str "apply") [c0, c1]) vd code =
      (match compile_ast c1 vd code with
      | (vd₁, code₁, .ok _) => (vd₁, code₁, .error .indexError)
      | failure => failure) := by
  rw [compile_ast.eq_def]
  simp [nodeKind, h]

theorem compile_ast_apply_nilE (c0 : ValueTree)
    (vd : VarDict) (code : List String) (h : opKind c0.get_value = .opOther) :
    compile_ast (.node (.str "apply") [c0]) vd code =
      (vd, code, .error .indexError) := by
  rw [compile_ast.eq_def]
  simp [nodeKind, h]

theorem compile_ast_otherE (v : Val) (children : List ValueTree)
    (vd : VarDict) (code : List String) (h : nodeKind v = .otherK) :
    compile_ast (.node v children) vd code =
      (vd, code, .error (.notImplemented (valToStr v))) := by
  rw [compile_ast.eq_def]
  cases children with
  | nil => simp [h]
  | cons a l => cases l with
    | nil => simp [h]
    | cons b l' => simp [h]

theorem compileS_constE (c : ValueTree) (rest : List ValueTree)
    (vd : VarDict) (code : List PStmt) :
    compileS (.node (.str "const") (c :: rest)) vd code =
      (vd, code, .ok (.const c.get_value)) := by
  rw [compileS.eq_def]
  simp [nodeKind]

theorem compileS_getE (c : ValueTree) (rest : List ValueTree)
    (vd : VarDict) (code : List PStmt) :
    compileS (.node (.str "get") (c :: rest)) vd code =
      (match c.get_value with
      | .str name =>
        (vd, code, .ok (.name (make_gen_name name ((vdGet vd name).getD 0))))
      | .num _ => (vd, code, .error .typeError)) := by
  rw [compileS.eq_def]
  simp [nodeKind]

theorem compileS_setE (c0 c1 : ValueTree) (rest : List ValueTree)
    (vd : VarDict) (code : List PStmt) :
    compileS (.node (.str "set") (c0 :: c1 :: rest)) vd code =
      (match c0.get_value with
      | .str name =>
        match compileS c1 vd code with
        | (vd₁, code₁, .ok const_num) =>
          match vdGet vd₁ name with
          | some n =>
            (vdSet vd₁ name (n + 1),
              code₁ ++ [.assign ("_" ++ name ++ "_" ++ toString (n + 1)) const_num],
              .ok (.name ("_" ++ name ++ "_" ++ toString (n + 1))))
          | none =>
            (vdSet vd₁ name 1,
              code₁ ++ [.assign ("_" ++ name ++ "_" ++ toString 1) const_num],
              .ok (.name ("_" ++ name ++ "_" ++ toString 1)))
        | failure => failure
      | .num _ => (vd, code, .error .typeError)) := by
  rw [compileS.eq_def]
  simp [nodeKind]

theorem compileS_apply_negE (c0 c1 : ValueTree) (rest : List ValueTree)
    (vd : VarDict) (code : List PStmt) (h : opKind c0.get_value = .negK) :
    compileS (.node (.str "apply") (c0 :: c1 :: rest)) vd code =
      (match compileS c1 vd code with
      | (vd₁, code₁, .ok temp_value) => (vd₁, code₁, .ok (.neg temp_value))
      | failure => failure) := by
  rw [compileS.eq_def]
  simp [nodeKind, h]

theorem compileS_apply_sqrE (c0 c1 : ValueTree) (rest : List ValueTree)
    (vd : VarDict) (code : List PStmt) (h : opKind c0.get_value = .sqrK) :
    compileS (.node (.str "apply") (c0 :: c1 :: rest)) vd code =
      (match compileS c1 vd code with
      | (vd₁, code₁, .ok temp_value) => (vd₁, code₁, .ok (.sq temp_value))
      | failure => failure) := by
  rw [compileS.eq_def]
  simp [nodeKind, h]

theorem compileS_apply_binE (c0 c1 c2 : ValueTree) (rest : List ValueTree)
    (vd : VarDict) (code : List PStmt) (h : opKind c0.get_value = .opOther) :
    compileS (.node (.str "apply") (c0 :: c1 :: c2 :: rest)) vd code =
      (match compileS c1 vd code with
      | (vd₁, code₁, .ok digit_1) =>
        match compileS c2 vd₁ code₁ with
        | (vd₂, code₂, .ok digit_2) =>
          match c0.get_value with
          | .str operator => (vd₂, code₂, .ok (.bin operator digit_1 digit_2))
          | .num _ => (vd₂, code₂, .error .typeError)
        | failure => failure
      | failure => failure) := by
  rw [compileS.eq_def]
  simp [nodeKind, h]

theorem compileS_apply_un1E (c0 c1 : ValueTree)
    (vd : VarDict) (code : List PStmt) (h : opKind c0.get_value = .opOther) :
    compileS (.node (.str "apply") [c0, c1]) vd code =
      (match compileS c1 vd code with
      | (vd₁, code₁, .ok _) => (vd₁, code₁, .error .indexError)
      | failure => failure) := by
  rw [compileS.eq_def]
  simp [nodeKind, h]

theorem compileS_apply_nilE (c0 : ValueTree)
    (vd : VarDict) (code : List PStmt) (h : opKind c0.get_value = .opOther) :
    compileS (.node (.str "apply") [c0]) vd code =
      (vd, code, .error .indexError) := by
  rw [compileS.eq_def]
  simp [nodeKind, h]

theorem compileS_otherE (v : Val) (children : List ValueTree)
    (vd : VarDict) (code : List PStmt) (h : nodeKind v = .otherK) :
    compileS (.node v children) vd code =
      (vd, code, .error (.notImplemented (valToStr v))) := by
  rw [compileS.eq_def]
  cases children with
  | nil => simp [h]
  | cons a l => cases l with
    | nil => simp [h]
    | cons b l' => simp [h]

/-- C10: for every `Apply` node whose operator has no implementation
in `op_to_fn`, evaluation raises the unknown-operator error before
evaluating any argument child, so the binding store returned by the
failed call is exactly the store passed in (no nested `Set` inside the
arguments takes effect). -/
theorem unknown_op_fails_before_args (c0 : ValueTree) (args : List ValueTree)
    (B : Store) (h : op_to_fn_defined c0.get_value = false) :
    evaluate_ast (.node (.str "apply") (c0 :: args)) B =
      (B, .error (.unknownOp (valToStr c0.get_value))) := by
  rw [evaluate_ast_applyE]
  simp [h]

/-- C10 witness: the unknown operator `f` applied to an argument list
whose only element is `x = 1`; the store comes back unchanged even
though the argument contains a `set`. -/
theorem unknown_op_fails_before_args_witness :
    op_to_fn_defined (leaf "f").get_value = false ∧
    evaluate_ast (.node (.str "apply") [leaf "f", setT "x" (constT 1)])
        (fun _ => none) =
      ((fun _ => none : Store), .error (.unknownOp (valToStr (leaf "f").get_value))) :=
  ⟨by decide, unknown_op_fails_before_args (leaf "f") [setT "x" (constT 1)]
    (fun _ => none) (by decide)⟩

/-- C7 counterexample: parsing empty input yields the `Pass` tree, and
on it the evaluator raises the internal not-implemented `ValueError`
(it does not return quietly), while the top-level compile returns that
error as a failure diagnostic with the buffer rolled back to empty —
not a success with a "no result" signal. -/
theorem pass_tree_fails_both :
    (evaluate_ast passTree (fun _ => none)).2 =
      .error (.notImplemented "pass") ∧
    compileTop passTree "" [] = .diag (notImplementedMsg "pass") [] := by
  constructor
  · rw [show passTree = ValueTree.node (.str "pass") [] from rfl,
      evaluate_ast_otherE _ _ _ (by decide)]
    rfl
  · rw [compileTop]
    rw [show passTree = ValueTree.node (.str "pass") [] from rfl,
      compile_ast_otherE _ _ _ _ (by decide)]
    simp
    rfl

/-- C7 amended: for every binding store, input string and prior code
buffer, evaluating the `Pass` tree raises the internal
`AST node type pass not implemented` `ValueError` (leaving the store
untouched and producing no value), and the top-level compile catches
the same error, truncates the buffer back to its initial contents and
returns the diagnostic instead of a success. -/
theorem pass_tree_behaviour (B : Store) (s : String) (code : List String) :
    evaluate_ast passTree B = (B, .error (.notImplemented "pass")) ∧
    compileTop passTree s code = .diag (notImplementedMsg "pass") code := by
  constructor
  · rw [show passTree = ValueTree.node (.str "pass") [] from rfl,
      evaluate_ast_otherE _ _ _ (by decide)]
    rfl
  · rw [compileTop]
    rw [show passTree = ValueTree.node (.str "pass") [] from rfl,
      compile_ast_otherE _ _ _ _ (by decide)]
    simp
    rfl

/-- C2 failing input: compiling `f()` (a parser-producible tree) hits
the uncaught `IndexError` of the apply branch; the exception escapes
`Compiler.compile` with the two appended comment statements still in
the caller's buffer, so a failed call can leave the buffer changed. -/
theorem compile_index_error_leaks_buffer :
    compileTop (callT "f" []) "f()" [] =
      .exn .indexError ["# code for:", "# f()"] ∧
    PExprTree (callT "f" []) := by
  constructor
  · rw [compileTop]
    rw [show callT "f" [] = ValueTree.node (.str "apply") [leaf "f"] from rfl]
    rw [compile_ast_apply_nilE _ _ _ (by decide)]
    rfl
  · exact PExprTree.call "f" [] (by decide) (by intro a ha; cases ha)

/-- C6 failing input: an `Apply` of the two-argument named function
`f(1, 2)` — a parser-producible, diagnostic-free tree — is rendered by
`compile_ast` as the infix string `(1 f 2)` instead of the call form
`f(1,2)`; with three arguments the third is silently dropped, and with
fewer than two the compiler raises an uncaught `IndexError`. -/
theorem named_call_not_rendered_as_call :
    compile_ast (callT "f" [constT 1, constT 2]) [] [] =
      ([], [], .ok "(1 f 2)") ∧
    compile_ast (callT "h" [constT 1, constT 2, constT 3]) [] [] =
      ([], [], .ok "(1 h 2)") ∧
    compile_ast (callT "g" [constT 7]) [] [] = ([], [], .error .indexError) ∧
    PExprTree (callT "f" [constT 1, constT 2]) := by
  refine ⟨?_, ?_, ?_, ?_⟩
  · rw [show callT "f" [constT 1, constT 2] =
      ValueTree.node (.str "apply") [leaf "f", constT 1, constT 2] from rfl]
    rw [compile_ast_apply_binE _ _ _ _ _ _ (by decide)]
    simp only [show constT 1 = ValueTree.node (.str "const") [.node (.num 1) []] from rfl,
      show constT 2 = ValueTree.node (.str "const") [.node (.num 2) []] from rfl,
      compile_ast_constE]
    rfl
  · rw [show callT "h" [constT 1, constT 2, constT 3] =
      ValueTree.node (.str "apply") [leaf "h", constT 1, constT 2, constT 3] from rfl]
    rw [compile_ast_apply_binE _ _ _ _ _ _ (by decide)]
    simp only [show constT 1 = ValueTree.node (.str "const") [.node (.num 1) []] from rfl,
      show constT 2 = ValueTree.node (.str "const") [.node (.num 2) []] from rfl,
      compile_ast_constE]
    rfl
  · rw [show callT "g" [constT 7] =
      ValueTree.node (.str "apply") [leaf "g", constT 7] from rfl]
    rw [compile_ast_apply_un1E _ _ _ _ (by decide)]
    simp only [show constT 7 = ValueTree.node (.str "const") [.node (.num 7) []] from rfl,
      compile_ast_constE]
  · refine PExprTree.call "f" [constT 1, constT 2] (by decide) ?_
    intro a ha
    cases ha with
    | head => exact PExprTree.const 1
    | tail _ hb =>
      cases hb with
      | head => exact PExprTree.const 2
      | tail _ hc => cases hc

/-- C4 failing input: `unparse` on the tree of `1 + 2`.  Any tree with
children makes `ExprParser.unparse` read the missing `fn_to_op`
attribute, so the call raises instead of yielding a string; no
parser-produced expression tree is unparsed successfully (every one
has children). -/
theorem unparse_raises_on_parser_trees :
    unparse (binT "+" (constT 1) (constT 2)) = .error .attributeError ∧
    PExprTree (binT "+" (constT 1) (constT 2)) := by
  constructor
  · rfl
  · exact PExprTree.binop "+" (constT 1) (constT 2) (by decide)
      (PExprTree.const 1) (PExprTree.const 2)

/-- C9 counterexample: the synthesized temporary for `(x, 1)` is the
string `_x_1`, which itself belongs to the lexical class of `t_NAME`
and can appear as a user identifier in a parsed expression (here one
that also assigns `x` twice, so the temporary for `(x, 2)` collides
with the user identifier `_x_2`). -/
theorem gen_name_collides_with_identifier :
    make_gen_name "x" 1 = "_x_1" ∧ IsName "_x_1" = true ∧
    PExprTree (binT "+" (getT "_x_2") (setT "x" (setT "x" (constT 1)))) := by
  refine ⟨by decide, by decide, ?_⟩
  exact PExprTree.binop "+" _ _ (by decide)
    (PExprTree.get "_x_2" (by decide))
    (PExprTree.set "x" _ (by decide) (PExprTree.set "x" _ (by decide) (PExprTree.const 1)))


theorem nodeKind_constK {v : Val} (h : nodeKind v = .constK) : v = .str "const" := by
  unfold nodeKind at h
  split_ifs at h with h1 h2 h3 h4
  exact h1

theorem nodeKind_applyK {v : Val} (h : nodeKind v = .applyK) : v = .str "apply" := by
  unfold nodeKind at h
  split_ifs at h with h1 h2 h3 h4
  exact h2

theorem nodeKind_setK {v : Val} (h : nodeKind v = .setK) : v = .str "set" := by
  unfold nodeKind at h
  split_ifs at h with h1 h2 h3 h4
  exact h3

theorem nodeKind_getK {v : Val} (h : nodeKind v = .getK) : v = .str "get" := by
  unfold nodeKind at h
  split_ifs at h with h1 h2 h3 h4
  exact h4

theorem get_value_str {c : ValueTree} {a : String} (h : c.get_value = .str a) :
    ∃ cs, c = .node (.str a) cs := by
  cases c with
  | node v cs => exact ⟨cs, by rw [show v = .str a from h]⟩

theorem eval_preserves_unset :
    ∀ (t : ValueTree) (B : Store) (x : String), setsVar t x = false →
      (evaluate_ast t B).1 x = B x := by
  intro t B
  refine evaluate_ast.induct
    (fun t B => ∀ x, setsVar t x = false → (evaluate_ast t B).1 x = B x)
    (fun l B => ∀ x, setsVarList l x = false → (evalArgs l B).1 x = B x)
    ?_ ?_ ?_ ?_ ?_ ?_ ?_ ?_ ?_ ?_ ?_ ?_ ?_ ?_ ?_ ?_ ?_ ?_ ?_ ?_ ?_ t B
  · -- const []
    intro v B h x _
    rw [nodeKind_constK h, evaluate_ast.eq_def]
    simp [nodeKind]
  · -- const num
    intro v B c tail h q hq x _
    rw [nodeKind_constK h, evaluate_ast_constE, hq]
  · -- const str
    intro v B c tail h a ha x _
    rw [nodeKind_constK h, evaluate_ast_constE, ha]
  · -- apply []
    intro v B h x _
    rw [nodeKind_applyK h, evaluate_ast.eq_def]
    simp [nodeKind]
  · -- apply defined, args ok
    intro v B c0 args h hdef B₁ vs hargs ih x hx
    rw [nodeKind_applyK h] at hx ⊢
    rw [evaluate_ast_applyE]
    rw [setsVar.eq_def] at hx
    simp only [Bool.or_eq_false_iff] at hx
    have hargs2 : setsVarList args x = false := by
      have h2 := hx.2
      rw [setsVarList.eq_def] at h2
      simp only [Bool.or_eq_false_iff] at h2
      exact h2.2
    rw [if_pos hdef, hargs]
    have := ih x hargs2
    rw [hargs] at this
    exact this
  · -- apply defined, args error
    intro v B c0 args h hdef B₁ e hargs ih x hx
    rw [nodeKind_applyK h] at hx ⊢
    rw [evaluate_ast_applyE]
    rw [setsVar.eq_def] at hx
    simp only [Bool.or_eq_false_iff] at hx
    have hargs2 : setsVarList args x = false := by
      have h2 := hx.2
      rw [setsVarList.eq_def] at h2
      simp only [Bool.or_eq_false_iff] at h2
      exact h2.2
    rw [if_pos hdef, hargs]
    have := ih x hargs2
    rw [hargs] at this
    exact this
  · -- apply undefined
    intro v B c0 args h hdef x _
    rw [nodeKind_applyK h, evaluate_ast_applyE]
    rw [if_neg hdef]
  · -- set []
    intro v B h x _
    rw [nodeKind_setK h, evaluate_ast.eq_def]
    simp [nodeKind]
  · -- set [head]
    intro v B head h x _
    rw [nodeKind_setK h, evaluate_ast.eq_def]
    simp [nodeKind]
  · -- set str, rhs ok
    intro v B c0 c1 tail h a ha B₁ value hc1 ih x hx
    rw [nodeKind_setK h] at hx ⊢
    rw [evaluate_ast_setE, ha, hc1]
    rw [setsVar.eq_def] at hx
    simp only [Bool.or_eq_false_iff] at hx
    obtain ⟨cs, rfl⟩ := get_value_str ha
    have hne : a ≠ x := by
      have h1 := hx.1
      unfold isSetOf at h1
      simpa using h1
    have hlist : setsVar c1 x = false := by
      have h2 := hx.2
      rw [setsVarList.eq_def] at h2
      simp only [Bool.or_eq_false_iff] at h2
      have h3 := h2.2
      rw [setsVarList.eq_def] at h3
      simp only [Bool.or_eq_false_iff] at h3
      exact h3.1
    have := ih x hlist
    rw [hc1] at this
    simp only [storeInsert]
    rw [if_neg (fun hh => hne hh.symm)]
    exact this
  · -- set str, rhs error
    intro v B c0 c1 tail h a ha B₁ e hc1 ih x hx
    rw [nodeKind_setK h] at hx ⊢
    rw [evaluate_ast_setE, ha, hc1]
    rw [setsVar.eq_def] at hx
    simp only [Bool.or_eq_false_iff] at hx
    have hlist : setsVar c1 x = false := by
      have h2 := hx.2
      rw [setsVarList.eq_def] at h2
      simp only [Bool.or_eq_false_iff] at h2
      have h3 := h2.2
      rw [setsVarList.eq_def] at h3
      simp only [Bool.or_eq_false_iff] at h3
      exact h3.1
    have := ih x hlist
    rw [hc1] at this
    exact this
  · -- set num
    intro v B c0 c1 tail h a ha x _
    rw [nodeKind_setK h, evaluate_ast_setE, ha]
  · -- get []
    intro v B h x _
    rw [nodeKind_getK h, evaluate_ast.eq_def]
    simp [nodeKind]
  · -- get str some
    intro v B c0 tail h a ha value hB x _
    rw [nodeKind_getK h, evaluate_ast_getE, ha]
    show (match B a with
      | some value => (B, Except.ok value)
      | none => (B, Except.error (EvalErr.unboundVar a))).1 x = B x
    cases hv : B a <;> rfl
  · -- get str none
    intro v B c0 tail h a ha hB x _
    rw [nodeKind_getK h, evaluate_ast_getE, ha]
    show (match B a with
      | some value => (B, Except.ok value)
      | none => (B, Except.error (EvalErr.unboundVar a))).1 x = B x
    cases hv : B a <;> rfl
  · -- get num
    intro v B c0 tail h a ha x _
    rw [nodeKind_getK h, evaluate_ast_getE, ha]
  · -- other
    intro v children B h x _
    rw [evaluate_ast_otherE _ _ _ h]
  · -- args nil
    intro B x _
    rw [evalArgs_nil]
  · -- args cons ok ok
    intro t ts B B₁ value ht B₂ vs hts ih1 ih2 x hx
    rw [setsVarList.eq_def] at hx
    simp only [Bool.or_eq_false_iff] at hx
    rw [evalArgs_cons, ht]
    have e1 := ih1 x hx.1
    rw [ht] at e1
    have e2 := ih2 x hx.2
    rw [hts] at e2
    show (match evalArgs ts B₁ with
      | (B₂, Except.ok vs) => (B₂, Except.ok (value :: vs))
      | (B₂, Except.error e) => (B₂, Except.error e)).1 x = B x
    rw [hts]
    show B₂ x = B x
    exact e2.trans e1
  · -- args cons ok error
    intro t ts B B₁ value ht B₂ e hts ih1 ih2 x hx
    rw [setsVarList.eq_def] at hx
    simp only [Bool.or_eq_false_iff] at hx
    rw [evalArgs_cons, ht]
    have e1 := ih1 x hx.1
    rw [ht] at e1
    have e2 := ih2 x hx.2
    rw [hts] at e2
    show (match evalArgs ts B₁ with
      | (B₂, Except.ok vs) => (B₂, Except.ok (value :: vs))
      | (B₂, Except.error e) => (B₂, Except.error e)).1 x = B x
    rw [hts]
    show B₂ x = B x
    exact e2.trans e1
  · -- args cons error
    intro t ts B B₁ e ht ih1 x hx
    rw [setsVarList.eq_def] at hx
    simp only [Bool.or_eq_false_iff] at hx
    rw [evalArgs_cons, ht]
    have e1 := ih1 x hx.1
    rw [ht] at e1
    exact e1

theorem eval_never_unbinds :
    ∀ (t : ValueTree) (B : Store) (x : String), B x ≠ none →
      (evaluate_ast t B).1 x ≠ none := by
  intro t B
  refine evaluate_ast.induct
    (fun t B => ∀ x, B x ≠ none → (evaluate_ast t B).1 x ≠ none)
    (fun l B => ∀ x, B x ≠ none → (evalArgs l B).1 x ≠ none)
    ?_ ?_ ?_ ?_ ?_ ?_ ?_ ?_ ?_ ?_ ?_ ?_ ?_ ?_ ?_ ?_ ?_ ?_ ?_ ?_ ?_ t B
  · intro v B h x hx
    rw [nodeKind_constK h, evaluate_ast.eq_def]
    simpa [nodeKind] using hx
  · intro v B c tail h q hq x hx
    rw [nodeKind_constK h, evaluate_ast_constE, hq]
    exact hx
  · intro v B c tail h a ha x hx
    rw [nodeKind_constK h, evaluate_ast_constE, ha]
    exact hx
  · intro v B h x hx
    rw [nodeKind_applyK h, evaluate_ast.eq_def]
    simpa [nodeKind] using hx
  · intro v B c0 args h hdef B₁ vs hargs ih x hx
    rw [nodeKind_applyK h, evaluate_ast_applyE, if_pos hdef, hargs]
    have := ih x hx
    rw [hargs] at this
    exact this
  · intro v B c0 args h hdef B₁ e hargs ih x hx
    rw [nodeKind_applyK h, evaluate_ast_applyE, if_pos hdef, hargs]
    have := ih x hx
    rw [hargs] at this
    exact this
  · intro v B c0 args h hdef x hx
    rw [nodeKind_applyK h, evaluate_ast_applyE, if_neg hdef]
    exact hx
  · intro v B h x hx
    rw [nodeKind_setK h, evaluate_ast.eq_def]
    simpa [nodeKind] using hx
  · intro v B head h x hx
    rw [nodeKind_setK h, evaluate_ast.eq_def]
    simpa [nodeKind] using hx
  · intro v B c0 c1 tail h a ha B₁ value hc1 ih x hx
    rw [nodeKind_setK h, evaluate_ast_setE, ha, hc1]
    have := ih x hx
    rw [hc1] at this
    show storeInsert B₁ a value x ≠ none
    unfold storeInsert
    by_cases hxa : x = a
    · simp [hxa]
    · simpa [hxa] using this
  · intro v B c0 c1 tail h a ha B₁ e hc1 ih x hx
    rw [nodeKind_setK h, evaluate_ast_setE, ha, hc1]
    have := ih x hx
    rw [hc1] at this
    exact this
  · intro v B c0 c1 tail h a ha x hx
    rw [nodeKind_setK h, evaluate_ast_setE, ha]
    exact hx
  · intro v B h x hx
    rw [nodeKind_getK h, evaluate_ast.eq_def]
    simpa [nodeKind] using hx
  · intro v B c0 tail h a ha value hB x hx
    rw [nodeKind_getK h, evaluate_ast_getE, ha]
    show (match B a with
      | some value => (B, Except.ok value)
      | none => (B, Except.error (EvalErr.unboundVar a))).1 x ≠ none
    cases hv : B a <;> exact hx
  · intro v B c0 tail h a ha hB x hx
    rw [nodeKind_getK h, evaluate_ast_getE, ha]
    show (match B a with
      | some value => (B, Except.ok value)
      | none => (B, Except.error (EvalErr.unboundVar a))).1 x ≠ none
    cases hv : B a <;> exact hx
  · intro v B c0 tail h a ha x hx
    rw [nodeKind_getK h, evaluate_ast_getE, ha]
    exact hx
  · intro v children B h x hx
    rw [evaluate_ast_otherE _ _ _ h]
    exact hx
  · intro B x hx
    rw [evalArgs_nil]
    exact hx
  · intro t ts B B₁ value ht B₂ vs hts ih1 ih2 x hx
    rw [evalArgs_cons, ht]
    have e1 := ih1 x hx
    rw [ht] at e1
    have e2 := ih2 x e1
    rw [hts] at e2
    show (match evalArgs ts B₁ with
      | (B₂, Except.ok vs) => (B₂, Except.ok (value :: vs))
      | (B₂, Except.error e) => (B₂, Except.error e)).1 x ≠ none
    rw [hts]
    exact e2
  · intro t ts B B₁ value ht B₂ e hts ih1 ih2 x hx
    rw [evalArgs_cons, ht]
    have e1 := ih1 x hx
    rw [ht] at e1
    have e2 := ih2 x e1
    rw [hts] at e2
    show (match evalArgs ts B₁ with
      | (B₂, Except.ok vs) => (B₂, Except.ok (value :: vs))
      | (B₂, Except.error e) => (B₂, Except.error e)).1 x ≠ none
    rw [hts]
    exact e2
  · intro t ts B B₁ e ht ih1 x hx
    rw [evalArgs_cons, ht]
    have e1 := ih1 x hx
    rw [ht] at e1
    exact e1

/-- C8: partial side effects survive evaluation failure.  No binding
is ever removed by an evaluation, and in the canonical failing shape —
an implemented binary operator whose left argument is a completed
`Set` and whose right argument then fails — the failed call returns
the very store reached at the failure point, in which the `Set`'s
binding is still present (with its written value, whenever the failing
part does not itself reassign the name). -/
theorem set_bindings_survive_failure :
    (∀ (t : ValueTree) (B : Store) (x : String), B x ≠ none →
      (evaluate_ast t B).1 x ≠ none) ∧
    (∀ (name : String) (e t₂ : ValueTree) (op : Val) (B B₁ B₂ : Store)
      (v : ℚ) (err : EvalErr),
      op_to_fn_defined op = true →
      evaluate_ast (setT name e) B = (B₁, .ok v) →
      evaluate_ast t₂ B₁ = (B₂, .error err) →
      evaluate_ast (.node (.str "apply") [.node op [], setT name e, t₂]) B =
        (B₂, .error err) ∧
      B₁ name = some v ∧
      (setsVar t₂ name = false → B₂ name = some v)) := by
  constructor
  · exact eval_never_unbinds
  · intro name e t₂ op B B₁ B₂ v err hdef hset ht₂
    have hname : B₁ name = some v := by
      rw [show setT name e = ValueTree.node (.str "set") [leaf name, e] from rfl,
        evaluate_ast_setE] at hset
      revert hset
      show (match (leaf name).get_value with
        | .str nm =>
          match evaluate_ast e B with
          | (Be, .ok value) => (storeInsert Be nm value, Except.ok value)
          | (Be, .error er) => (Be, Except.error er)
        | .num _ => (B, Except.error EvalErr.typeError)) = (B₁, Except.ok v) →
          B₁ name = some v
      show (match evaluate_ast e B with
        | (Be, .ok value) => (storeInsert Be name value, Except.ok value)
        | (Be, .error er) => (Be, Except.error er)) = (B₁, Except.ok v) →
          B₁ name = some v
      cases hev : evaluate_ast e B with
      | mk Be res =>
        cases res with
        | ok w =>
          intro hp
          have h1 : storeInsert Be name w = B₁ := congrArg Prod.fst hp
          have h2 : w = v := by
            have := congrArg Prod.snd hp
            simpa using this
          rw [← h1, h2]
          simp [storeInsert]
        | error er =>
          intro hp
          have := congrArg Prod.snd hp
          simp at this
    refine ⟨?_, hname, ?_⟩
    · rw [evaluate_ast_applyE]
      simp only [ValueTree.get_value]
      rw [if_pos hdef]
      simp only [evalArgs_cons, hset, ht₂]
    · intro hunset
      have := eval_preserves_unset t₂ B₁ name hunset
      rw [ht₂] at this
      rw [show (B₂, Except.error (α := ℚ) err).1 = B₂ from rfl] at this
      rw [this, hname]

/-- C8 witness: `x = 1` followed by a failing lookup of the unbound
`y` under `+`; the failed call returns the store in which `x` is still
bound to 1. -/
theorem set_bindings_survive_failure_witness :
    op_to_fn_defined (.str "+") = true ∧
    evaluate_ast (.node (.str "apply")
        [.node (.str "+") [], setT "x" (constT 1), getT "y"]) (fun _ => none) =
      (storeInsert (fun _ => none) "x" 1, .error (.unboundVar "y")) ∧
    storeInsert (fun _ => none) "x" 1 "x" = some 1 := by
  have hset : evaluate_ast (setT "x" (constT 1)) (fun _ => none) =
      (storeInsert (fun _ => none) "x" 1, .ok 1) := by
    rw [show setT "x" (constT 1) =
      ValueTree.node (.str "set") [leaf "x", constT 1] from rfl, evaluate_ast_setE]
    rw [show constT 1 = ValueTree.node (.str "const") [.node (.num 1) []] from rfl,
      evaluate_ast_constE]
    rfl
  have hget : evaluate_ast (getT "y") (storeInsert (fun _ => none) "x" 1) =
      (storeInsert (fun _ => none) "x" 1, .error (.unboundVar "y")) := by
    rw [show getT "y" = ValueTree.node (.str "get") [leaf "y"] from rfl,
      evaluate_ast_getE]
    rfl
  have main := set_bindings_survive_failure.2 "x" (constT 1) (getT "y") (.str "+")
    (fun _ => none) (storeInsert (fun _ => none) "x" 1)
    (storeInsert (fun _ => none) "x" 1) 1 (.unboundVar "y") (by decide) hset hget
  exact ⟨by decide, main.1, main.2.1⟩

/-- C9 amended: the synthesized temporary names are injective across
(variable, generation) pairs with positive generation, and distinct
from every identifier that does not begin with an underscore; they
are not, however, outside the user lexical class (see the
counterexample), so only underscore-free user identifiers are safe. -/
theorem gen_names_pairwise_distinct :
    (∀ (x y : String) (n m : ℕ), 1 ≤ n → 1 ≤ m →
      make_gen_name x n = make_gen_name y m → x = y ∧ n = m) ∧
    (∀ (y x : String) (n : ℕ), cleanName y = true → 1 ≤ n →
      y ≠ make_gen_name x n) :=
  ⟨fun x y n m hn hm h => make_gen_name_inj x y n m hn hm h,
   fun y x n hy hn => cleanName_ne_gen y x n hy hn⟩

/-- C9 amended witness: concrete instances of both parts. -/
theorem gen_names_pairwise_distinct_witness :
    ("x" = "x" ∧ 1 = 1) ∧ "b" ≠ make_gen_name "a" 1 :=
  ⟨gen_names_pairwise_distinct.1 "x" "x" 1 1 (le_refl 1) (le_refl 1) rfl,
   gen_names_pairwise_distinct.2 "b" "a" 1 (by decide) (le_refl 1)⟩

theorem opKind_negK {v : Val} (h : opKind v = .negK) : v = .str "neg" := by
  unfold opKind at h
  split_ifs at h with h1 h2
  exact h1

theorem opKind_sqrK {v : Val} (h : opKind v = .sqrK) : v = .str "sqr" := by
  unfold opKind at h
  split_ifs at h with h1 h2
  exact h2

theorem isBinOp_opOther {op : String} (h : IsBinOp op = true) :
    opKind (.str op) = .opOther := by
  unfold IsBinOp at h
  simp only [Bool.or_eq_true, decide_eq_true_eq] at h
  rcases h with ((rfl | rfl) | rfl) | rfl <;> decide

theorem evaluate_ast_constT (n : ℕ) (B : Store) :
    evaluate_ast (constT n) B = (B, .ok (n : ℚ)) := by
  rw [show constT n = ValueTree.node (.str "const") [.node (.num (n : ℚ)) []] from rfl,
    evaluate_ast_constE]
  rfl

theorem evaluate_ast_getT (x : String) (B : Store) :
    evaluate_ast (getT x) B =
      (match B x with
      | some value => (B, .ok value)
      | none => (B, .error (.unboundVar x))) := by
  rw [show getT x = ValueTree.node (.str "get") [leaf x] from rfl,
    evaluate_ast_getE]
  rfl

theorem evaluate_ast_setT (x : String) (e : ValueTree) (B : Store) :
    evaluate_ast (setT x e) B =
      (match evaluate_ast e B with
      | (B₁, .ok value) => (storeInsert B₁ x value, .ok value)
      | (B₁, .error err) => (B₁, .error err)) := by
  rw [show setT x e = ValueTree.node (.str "set") [leaf x, e] from rfl,
    evaluate_ast_setE]
  rfl

theorem evaluate_ast_callT (f : String) (args : List ValueTree) (B : Store) :
    evaluate_ast (callT f args) B =
      (if op_to_fn_defined (.str f) then
        match evalArgs args B with
        | (B₁, .ok vs) => (B₁, applyOp (.str f) vs)
        | (B₁, .error e) => (B₁, .error e)
      else
        (B, .error (.unknownOp f))) := by
  rw [show callT f args = ValueTree.node (.str "apply") (leaf f :: args) from rfl,
    evaluate_ast_applyE]
  rfl

theorem compile_ast_constT (n : ℕ) (vd : VarDict) (code : List String) :
    compile_ast (constT n) vd code = (vd, code, .ok (valToStr (.num (n : ℚ)))) := by
  rw [show constT n = ValueTree.node (.str "const") [.node (.num (n : ℚ)) []] from rfl,
    compile_ast_constE]
  rfl

theorem compile_ast_getT (x : String) (vd : VarDict) (code : List String) :
    compile_ast (getT x) vd code =
      (vd, code, .ok (make_gen_name x ((vdGet vd x).getD 0))) := by
  rw [show getT x = ValueTree.node (.str "get") [leaf x] from rfl,
    compile_ast_getE]
  rfl

theorem compile_ast_setT (x : String) (e : ValueTree) (vd : VarDict)
    (code : List String) :
    compile_ast (setT x e) vd code =
      (match compile_ast e vd code with
      | (vd₁, code₁, .ok const_num) =>
        match vdGet vd₁ x with
        | some n =>
          (vdSet vd₁ x (n + 1),
            code₁ ++ ["_" ++ x ++ "_" ++ toString (n + 1) ++ " = " ++ const_num],
            .ok ("_" ++ x ++ "_" ++ toString (n + 1)))
        | none =>
          (vdSet vd₁ x 1,
            code₁ ++ ["_" ++ x ++ "_" ++ toString 1 ++ " = " ++ const_num],
            .ok ("_" ++ x ++ "_" ++ toString 1))
      | failure => failure) := by
  rw [show setT x e = ValueTree.node (.str "set") [leaf x, e] from rfl,
    compile_ast_setE]
  rfl

theorem compile_ast_negT (a : ValueTree) (vd : VarDict) (code : List String) :
    compile_ast (negT a) vd code =
      (match compile_ast a vd code with
      | (vd₁, code₁, .ok temp_value) =>
        (vd₁, code₁, .ok ("(-" ++ temp_value ++ ")"))
      | failure => failure) := by
  rw [show negT a = ValueTree.node (.str "apply") (leaf "neg" :: a :: []) from rfl,
    compile_ast_apply_negE _ _ _ _ _ (by decide)]

theorem compile_ast_binT (op : String) (a b : ValueTree) (vd : VarDict)
    (code : List String) (h : opKind (.str op) = .opOther) :
    compile_ast (binT op a b) vd code =
      (match compile_ast a vd code with
      | (vd₁, code₁, .ok digit_1) =>
        match compile_ast b vd₁ code₁ with
        | (vd₂, code₂, .ok digit_2) =>
          (vd₂, code₂, .ok ("(" ++ digit_1 ++ " " ++ op ++ " " ++ digit_2 ++ ")"))
        | failure => failure
      | failure => failure) := by
  rw [show binT op a b = ValueTree.node (.str "apply") (leaf op :: a :: b :: []) from rfl,
    compile_ast_apply_binE _ _ _ _ _ _ (show opKind (leaf op).get_value = .opOther from h)]
  rfl

theorem evaluate_ast_setT_ok {e : ValueTree} {B B₁ : Store} {w : ℚ} (x : String)
    (he : evaluate_ast e B = (B₁, .ok w)) :
    evaluate_ast (setT x e) B = (storeInsert B₁ x w, .ok w) := by
  rw [evaluate_ast_setT, he]

theorem evaluate_ast_setT_err {e : ValueTree} {B B₁ : Store} {err : EvalErr}
    (x : String) (he : evaluate_ast e B = (B₁, .error err)) :
    evaluate_ast (setT x e) B = (B₁, .error err) := by
  rw [evaluate_ast_setT, he]

theorem evaluate_ast_getT_some {B : Store} {x : String} {v : ℚ}
    (h : B x = some v) : evaluate_ast (getT x) B = (B, .ok v) := by
  rw [evaluate_ast_getT, h]

theorem evaluate_ast_getT_none {B : Store} {x : String}
    (h : B x = none) : evaluate_ast (getT x) B = (B, .error (.unboundVar x)) := by
  rw [evaluate_ast_getT, h]

theorem evalArgs1_ok {a : ValueTree} {B B₁ : Store} {va : ℚ}
    (ha : evaluate_ast a B = (B₁, .ok va)) :
    evalArgs [a] B = (B₁, .ok [va]) := by
  rw [evalArgs_cons, ha]
  show (match evalArgs [] B₁ with
    | (B₂, Except.ok vs) => (B₂, Except.ok (va :: vs))
    | (B₂, Except.error e) => (B₂, Except.error e)) = (B₁, Except.ok [va])
  rw [evalArgs_nil]

theorem evalArgs1_err {a : ValueTree} {B B₁ : Store} {err : EvalErr}
    (ha : evaluate_ast a B = (B₁, .error err)) :
    evalArgs [a] B = (B₁, .error err) := by
  rw [evalArgs_cons, ha]

theorem evalArgs2_ok {a b : ValueTree} {B B₁ B₂ : Store} {va vb : ℚ}
    (ha : evaluate_ast a B = (B₁, .ok va))
    (hb : evaluate_ast b B₁ = (B₂, .ok vb)) :
    evalArgs [a, b] B = (B₂, .ok [va, vb]) := by
  rw [evalArgs_cons, ha]
  show (match evalArgs [b] B₁ with
    | (B₂, Except.ok vs) => (B₂, Except.ok (va :: vs))
    | (B₂, Except.error e) => (B₂, Except.error e)) = (B₂, Except.ok [va, vb])
  rw [evalArgs1_ok hb]

theorem evalArgs2_errL {a b : ValueTree} {B B₁ : Store} {err : EvalErr}
    (ha : evaluate_ast a B = (B₁, .error err)) :
    evalArgs [a, b] B = (B₁, .error err) := by
  rw [evalArgs_cons, ha]

theorem evalArgs2_errR {a b : ValueTree} {B B₁ B₂ : Store} {va : ℚ} {err : EvalErr}
    (ha : evaluate_ast a B = (B₁, .ok va))
    (hb : evaluate_ast b B₁ = (B₂, .error err)) :
    evalArgs [a, b] B = (B₂, .error err) := by
  rw [evalArgs_cons, ha]
  show (match evalArgs [b] B₁ with
    | (B₂, Except.ok vs) => (B₂, Except.ok (va :: vs))
    | (B₂, Except.error e) => (B₂, Except.error e)) = (B₂, Except.error err)
  rw [evalArgs1_err hb]

theorem evaluate_ast_binT_ok {a b : ValueTree} {B B₁ B₂ : Store} {va vb : ℚ}
    (op : String) (hop : op_to_fn_defined (.str op) = true)
    (ha : evaluate_ast a B = (B₁, .ok va))
    (hb : evaluate_ast b B₁ = (B₂, .ok vb)) :
    evaluate_ast (binT op a b) B = (B₂, applyOp (.str op) [va, vb]) := by
  rw [show binT op a b = callT op [a, b] from rfl, evaluate_ast_callT, if_pos hop,
    evalArgs2_ok ha hb]

theorem evaluate_ast_binT_errL {a b : ValueTree} {B B₁ : Store} {err : EvalErr}
    (op : String) (hop : op_to_fn_defined (.str op) = true)
    (ha : evaluate_ast a B = (B₁, .error err)) :
    evaluate_ast (binT op a b) B = (B₁, .error err) := by
  rw [show binT op a b = callT op [a, b] from rfl, evaluate_ast_callT, if_pos hop,
    evalArgs2_errL ha]

theorem evaluate_ast_binT_errR {a b : ValueTree} {B B₁ B₂ : Store} {va : ℚ}
    {err : EvalErr} (op : String) (hop : op_to_fn_defined (.str op) = true)
    (ha : evaluate_ast a B = (B₁, .ok va))
    (hb : evaluate_ast b B₁ = (B₂, .error err)) :
    evaluate_ast (binT op a b) B = (B₂, .error err) := by
  rw [show binT op a b = callT op [a, b] from rfl, evaluate_ast_callT, if_pos hop,
    evalArgs2_errR ha hb]

theorem evaluate_ast_call1_ok {a : ValueTree} {B B₁ : Store} {va : ℚ}
    (f : String) (hf : op_to_fn_defined (.str f) = true)
    (ha : evaluate_ast a B = (B₁, .ok va)) :
    evaluate_ast (callT f [a]) B = (B₁, applyOp (.str f) [va]) := by
  rw [evaluate_ast_callT, if_pos hf, evalArgs1_ok ha]

theorem evaluate_ast_call1_err {a : ValueTree} {B B₁ : Store} {err : EvalErr}
    (f : String) (hf : op_to_fn_defined (.str f) = true)
    (ha : evaluate_ast a B = (B₁, .error err)) :
    evaluate_ast (callT f [a]) B = (B₁, .error err) := by
  rw [evaluate_ast_callT, if_pos hf, evalArgs1_err ha]

theorem compile_ast_setT_bump {e : ValueTree} {vd vd₁ : VarDict}
    {code code₁ : List String} {r : String} {n : ℕ} (x : String)
    (hr : compile_ast e vd code = (vd₁, code₁, .ok r))
    (hn : vdGet vd₁ x = some n) :
    compile_ast (setT x e) vd code =
      (vdSet vd₁ x (n + 1),
        code₁ ++ ["_" ++ x ++ "_" ++ toString (n + 1) ++ " = " ++ r],
        .ok ("_" ++ x ++ "_" ++ toString (n + 1))) := by
  rw [compile_ast_setT, hr]
  show (match vdGet vd₁ x with
    | some n =>
      (vdSet vd₁ x (n + 1),
        code₁ ++ ["_" ++ x ++ "_" ++ toString (n + 1) ++ " = " ++ r],
        Except.ok ("_" ++ x ++ "_" ++ toString (n + 1)))
    | none =>
      (vdSet vd₁ x 1,
        code₁ ++ ["_" ++ x ++ "_" ++ toString 1 ++ " = " ++ r],
        Except.ok ("_" ++ x ++ "_" ++ toString 1))) = _
  rw [hn]

theorem compile_ast_setT_new {e : ValueTree} {vd vd₁ : VarDict}
    {code code₁ : List String} {r : String} (x : String)
    (hr : compile_ast e vd code = (vd₁, code₁, .ok r))
    (hn : vdGet vd₁ x = none) :
    compile_ast (setT x e) vd code =
      (vdSet vd₁ x 1,
        code₁ ++ ["_" ++ x ++ "_" ++ toString 1 ++ " = " ++ r],
        .ok ("_" ++ x ++ "_" ++ toString 1)) := by
  rw [compile_ast_setT, hr]
  show (match vdGet vd₁ x with
    | some n =>
      (vdSet vd₁ x (n + 1),
        code₁ ++ ["_" ++ x ++ "_" ++ toString (n + 1) ++ " = " ++ r],
        Except.ok ("_" ++ x ++ "_" ++ toString (n + 1)))
    | none =>
      (vdSet vd₁ x 1,
        code₁ ++ ["_" ++ x ++ "_" ++ toString 1 ++ " = " ++ r],
        Except.ok ("_" ++ x ++ "_" ++ toString 1))) = _
  rw [hn]

theorem compile_ast_setT_err {e : ValueTree} {vd vd₁ : VarDict}
    {code code₁ : List String} {err : CompErr} (x : String)
    (hr : compile_ast e vd code = (vd₁, code₁, .error err)) :
    compile_ast (setT x e) vd code = (vd₁, code₁, .error err) := by
  rw [compile_ast_setT, hr]

theorem compile_ast_negT_ok {a : ValueTree} {vd vd₁ : VarDict}
    {code code₁ : List String} {r : String}
    (hr : compile_ast a vd code = (vd₁, code₁, .ok r)) :
    compile_ast (negT a) vd code = (vd₁, code₁, .ok ("(-" ++ r ++ ")")) := by
  rw [compile_ast_negT, hr]

theorem compile_ast_negT_err {a : ValueTree} {vd vd₁ : VarDict}
    {code code₁ : List String} {err : CompErr}
    (hr : compile_ast a vd code = (vd₁, code₁, .error err)) :
    compile_ast (negT a) vd code = (vd₁, code₁, .error err) := by
  rw [compile_ast_negT, hr]

theorem compile_ast_call_negT (a : ValueTree) (rest : List ValueTree)
    (vd : VarDict) (code : List String) :
    compile_ast (callT "neg" (a :: rest)) vd code =
      (match compile_ast a vd code with
      | (vd₁, code₁, .ok temp_value) =>
        (vd₁, code₁, .ok ("(-" ++ temp_value ++ ")"))
      | failure => failure) := by
  rw [show callT "neg" (a :: rest) =
    ValueTree.node (.str "apply") (leaf "neg" :: a :: rest) from rfl,
    compile_ast_apply_negE _ _ _ _ _ (by decide)]

theorem compile_ast_call_sqrT (a : ValueTree) (rest : List ValueTree)
    (vd : VarDict) (code : List String) :
    compile_ast (callT "sqr" (a :: rest)) vd code =
      (match compile_ast a vd code with
      | (vd₁, code₁, .ok temp_value) =>
        (vd₁, code₁, .ok ("(" ++ temp_value ++ " ** 2)"))
      | failure => failure) := by
  rw [show callT "sqr" (a :: rest) =
    ValueTree.node (.str "apply") (leaf "sqr" :: a :: rest) from rfl,
    compile_ast_apply_sqrE _ _ _ _ _ (by decide)]

theorem compile_ast_binT_ok {a b : ValueTree} {vd vd₁ vd₂ : VarDict}
    {code code₁ code₂ : List String} {r₁ r₂ : String} (op : String)
    (h : opKind (.str op) = .opOther)
    (ha : compile_ast a vd code = (vd₁, code₁, .ok r₁))
    (hb : compile_ast b vd₁ code₁ = (vd₂, code₂, .ok r₂)) :
    compile_ast (binT op a b) vd code =
      (vd₂, code₂, .ok ("(" ++ r₁ ++ " " ++ op ++ " " ++ r₂ ++ ")")) := by
  rw [compile_ast_binT op a b vd code h, ha]
  show (match compile_ast b vd₁ code₁ with
    | (vd₂, code₂, .ok digit_2) =>
      (vd₂, code₂, Except.ok ("(" ++ r₁ ++ " " ++ op ++ " " ++ digit_2 ++ ")"))
    | failure => failure) = _
  rw [hb]

theorem compile_ast_binT_errL {a b : ValueTree} {vd vd₁ : VarDict}
    {code code₁ : List String} {err : CompErr} (op : String)
    (h : opKind (.str op) = .opOther)
    (ha : compile_ast a vd code = (vd₁, code₁, .error err)) :
    compile_ast (binT op a b) vd code = (vd₁, code₁, .error err) := by
  rw [compile_ast_binT op a b vd code h, ha]

theorem compile_ast_binT_errR {a b : ValueTree} {vd vd₁ vd₂ : VarDict}
    {code code₁ code₂ : List String} {r₁ : String} {err : CompErr} (op : String)
    (h : opKind (.str op) = .opOther)
    (ha : compile_ast a vd code = (vd₁, code₁, .ok r₁))
    (hb : compile_ast b vd₁ code₁ = (vd₂, code₂, .error err)) :
    compile_ast (binT op a b) vd code = (vd₂, code₂, .error err) := by
  rw [compile_ast_binT op a b vd code h, ha]
  show (match compile_ast b vd₁ code₁ with
    | (vd₂, code₂, .ok digit_2) =>
      (vd₂, code₂, Except.ok ("(" ++ r₁ ++ " " ++ op ++ " " ++ digit_2 ++ ")"))
    | failure => failure) = _
  rw [hb]

theorem compile_ast_call_negT_ok {a : ValueTree} {rest : List ValueTree}
    {vd vd₁ : VarDict} {code code₁ : List String} {r : String}
    (hr : compile_ast a vd code = (vd₁, code₁, .ok r)) :
    compile_ast (callT "neg" (a :: rest)) vd code =
      (vd₁, code₁, .ok ("(-" ++ r ++ ")")) := by
  rw [compile_ast_call_negT, hr]

theorem compile_ast_call_sqrT_ok {a : ValueTree} {rest : List ValueTree}
    {vd vd₁ : VarDict} {code code₁ : List String} {r : String}
    (hr : compile_ast a vd code = (vd₁, code₁, .ok r)) :
    compile_ast (callT "sqr" (a :: rest)) vd code =
      (vd₁, code₁, .ok ("(" ++ r ++ " ** 2)")) := by
  rw [compile_ast_call_sqrT, hr]

theorem opKind_opOther {v : Val} (h : opKind v = .opOther) :
    v ≠ .str "neg" ∧ v ≠ .str "sqr" := by
  unfold opKind at h
  split_ifs at h with h1 h2
  exact ⟨h1, h2⟩

theorem compile_ast_callN_ok {a b : ValueTree}
    {vd vd₁ vd₂ : VarDict} {code code₁ code₂ : List String} {r₁ r₂ : String}
    (f : String) (rest : List ValueTree) (h : opKind (.str f) = .opOther)
    (ha : compile_ast a vd code = (vd₁, code₁, .ok r₁))
    (hb : compile_ast b vd₁ code₁ = (vd₂, code₂, .ok r₂)) :
    compile_ast (callT f (a :: b :: rest)) vd code =
      (vd₂, code₂, .ok ("(" ++ r₁ ++ " " ++ f ++ " " ++ r₂ ++ ")")) := by
  rw [show callT f (a :: b :: rest) =
    ValueTree.node (.str "apply") (leaf f :: a :: b :: rest) from rfl,
    compile_ast_apply_binE _ _ _ _ _ _ (show opKind (leaf f).get_value = .opOther from h), ha]
  show (match compile_ast b vd₁ code₁ with
    | (vd₂, code₂, .ok digit_2) =>
      (vd₂, code₂, Except.ok ("(" ++ r₁ ++ " " ++ f ++ " " ++ digit_2 ++ ")"))
    | failure => failure) = _
  rw [hb]

theorem wellArity_node (v : Val) (children : List ValueTree) :
    wellArity (.node v children) = (arityOk v children && wellArityList children) := by
  rw [wellArity]

theorem wellArityList_mem {l : List ValueTree} (h : wellArityList l = true) :
    ∀ a ∈ l, wellArity a = true := by
  induction l with
  | nil => intro a ha; cases ha
  | cons t ts ih =>
    rw [wellArityList] at h
    simp only [Bool.and_eq_true] at h
    intro a ha
    cases ha with
    | head => exact h.1
    | tail _ hb => exact ih h.2 a hb

theorem wellArity_children {v : Val} {children : List ValueTree}
    (h : wellArity (.node v children) = true) :
    ∀ a ∈ children, wellArity a = true := by
  rw [wellArity_node] at h
  simp only [Bool.and_eq_true] at h
  exact wellArityList_mem h.2

theorem wellArityList_nil : wellArityList [] = true := by
  rw [wellArityList]

theorem wellArityList_cons (t : ValueTree) (ts : List ValueTree) :
    wellArityList (t :: ts) = (wellArity t && wellArityList ts) := by
  rw [wellArityList]

theorem wellArity_leaf (x : String) (h : Val.str x ≠ Val.str "apply") :
    wellArity (leaf x) = true := by
  rw [show leaf x = ValueTree.node (.str x) [] from rfl, wellArity_node,
    wellArityList_nil]
  unfold arityOk
  rw [if_neg h]
  rfl

theorem wellArity_constT (n : ℕ) : wellArity (constT n) = true := by
  rw [show constT n = ValueTree.node (.str "const") [.node (.num (n : ℚ)) []] from rfl,
    wellArity_node, wellArityList_cons, wellArity_node, wellArityList_nil]
  rfl

theorem arityOk_apply_len1 {f : String} {args : List ValueTree}
    (h : arityOk (.str "apply") (leaf f :: args) = true) : 1 ≤ args.length := by
  unfold arityOk at h
  rw [if_pos rfl] at h
  replace h : (if (decide ((leaf f).get_value = Val.str "neg") ||
      decide ((leaf f).get_value = Val.str "sqr")) = true then
      decide (args.length ≥ 1) else decide (args.length ≥ 2)) = true := h
  by_cases hc : (decide ((leaf f).get_value = Val.str "neg") ||
      decide ((leaf f).get_value = Val.str "sqr")) = true
  · rw [if_pos hc] at h
    simpa using h
  · rw [if_neg hc] at h
    have h2 : 2 ≤ args.length := by simpa using h
    omega

theorem arityOk_apply_len2 {f : String} {args : List ValueTree}
    (hk : opKind (.str f) = .opOther)
    (h : arityOk (.str "apply") (leaf f :: args) = true) : 2 ≤ args.length := by
  obtain ⟨hne, hns⟩ := opKind_opOther hk
  unfold arityOk at h
  rw [if_pos rfl] at h
  replace h : (if (decide ((leaf f).get_value = Val.str "neg") ||
      decide ((leaf f).get_value = Val.str "sqr")) = true then
      decide (args.length ≥ 1) else decide (args.length ≥ 2)) = true := h
  rw [if_neg (by
    simp only [Bool.or_eq_true, decide_eq_true_eq]
    rintro (hc | hc)
    · exact hne hc
    · exact hns hc)] at h
  simpa using h

theorem compile_ast_succeeds :
    ∀ (t : ValueTree), PExprTree t → wellArity t = true →
      ∀ (vd : VarDict) (code : List String),
        ∃ vd' code' e, compile_ast t vd code = (vd', code', .ok e) := by
  intro t ht
  induction ht with
  | const n =>
    intro _ vd code
    exact ⟨vd, code, _, compile_ast_constT n vd code⟩
  | get x hx =>
    intro _ vd code
    exact ⟨vd, code, _, compile_ast_getT x vd code⟩
  | set x e hx he ih =>
    intro hw vd code
    have hwe : wellArity e = true :=
      wellArity_children (show wellArity (ValueTree.node (.str "set") [leaf x, e]) = true
        from hw) e (by simp)
    obtain ⟨vd₁, code₁, r, hr⟩ := ih hwe vd code
    cases hn : vdGet vd₁ x with
    | some n => exact ⟨_, _, _, compile_ast_setT_bump x hr hn⟩
    | none => exact ⟨_, _, _, compile_ast_setT_new x hr hn⟩
  | binop op a b hop ha hb iha ihb =>
    intro hw vd code
    have hwa : wellArity a = true :=
      wellArity_children (show wellArity
        (ValueTree.node (.str "apply") [leaf op, a, b]) = true from hw) a (by simp)
    have hwb : wellArity b = true :=
      wellArity_children (show wellArity
        (ValueTree.node (.str "apply") [leaf op, a, b]) = true from hw) b (by simp)
    obtain ⟨vd₁, code₁, r₁, hr₁⟩ := iha hwa vd code
    obtain ⟨vd₂, code₂, r₂, hr₂⟩ := ihb hwb vd₁ code₁
    exact ⟨_, _, _, compile_ast_binT_ok op (isBinOp_opOther hop) hr₁ hr₂⟩
  | neg a ha iha =>
    intro hw vd code
    have hwa : wellArity a = true :=
      wellArity_children (show wellArity
        (ValueTree.node (.str "apply") [leaf "neg", a]) = true from hw) a (by simp)
    obtain ⟨vd₁, code₁, r, hr⟩ := iha hwa vd code
    exact ⟨_, _, _, compile_ast_negT_ok hr⟩
  | call f args hf hargs ih =>
    intro hw vd code
    have hw' := hw
    rw [wellArity_node] at hw'
    simp only [Bool.and_eq_true] at hw'
    have harity := hw'.1
    cases hk : opKind (.str f) with
    | negK =>
      have hfn : f = "neg" := by
        have := opKind_negK hk
        injection this
      subst hfn
      have hlen : 1 ≤ args.length := arityOk_apply_len1 harity
      cases args with
      | nil => simp at hlen
      | cons a rest =>
        have hwa : wellArity a = true :=
          wellArity_children (show wellArity
            (ValueTree.node (.str "apply") (leaf "neg" :: a :: rest)) = true
            from hw) a (by simp)
        obtain ⟨vd₁, code₁, r, hr⟩ := ih a (by simp) hwa vd code
        exact ⟨vd₁, code₁, _, compile_ast_call_negT_ok hr⟩
    | sqrK =>
      have hfn : f = "sqr" := by
        have := opKind_sqrK hk
        injection this
      subst hfn
      have hlen : 1 ≤ args.length := arityOk_apply_len1 harity
      cases args with
      | nil => simp at hlen
      | cons a rest =>
        have hwa : wellArity a = true :=
          wellArity_children (show wellArity
            (ValueTree.node (.str "apply") (leaf "sqr" :: a :: rest)) = true
            from hw) a (by simp)
        obtain ⟨vd₁, code₁, r, hr⟩ := ih a (by simp) hwa vd code
        exact ⟨vd₁, code₁, _, compile_ast_call_sqrT_ok hr⟩
    | opOther =>
      have hlen : 2 ≤ args.length := arityOk_apply_len2 hk harity
      match args, hargs, ih, hw, hlen with
      | [], hargs, ih, hw, hlen => exact absurd hlen (by simp)
      | [a], hargs, ih, hw, hlen => exact absurd hlen (by simp)
      | a :: b :: rest, hargs, ih, hw, _ =>
        have hwa : wellArity a = true :=
          wellArity_children (show wellArity
            (ValueTree.node (.str "apply") (leaf f :: a :: b :: rest)) = true
            from hw) a (by simp)
        have hwb : wellArity b = true :=
          wellArity_children (show wellArity
            (ValueTree.node (.str "apply") (leaf f :: a :: b :: rest)) = true
            from hw) b (by simp)
        obtain ⟨vd₁, code₁, r₁, hr₁⟩ := ih a (by simp) hwa vd code
        obtain ⟨vd₂, code₂, r₂, hr₂⟩ := ih b (by simp) hwb vd₁ code₁
        exact ⟨_, _, _, compile_ast_callN_ok f rest hk hr₁ hr₂⟩

/-- C3 counterexample: the diagnostic-free parser tree of `f(1, 2)`
contains an `Apply` of the unimplemented operator `f`, yet the
top-level compile succeeds (returns no diagnostic), emitting the infix
rendering; the compiler performs no unknown-operator check at all. -/
theorem unknown_op_compiles_successfully :
    op_to_fn_defined (.str "f") = false ∧
    PExprTree (callT "f" [constT 1, constT 2]) ∧
    compileTop (callT "f" [constT 1, constT 2]) "f(1,2)" [] =
      .ok ["# code for:", "# f(1,2)", "_result = (1 f 2)"] := by
  refine ⟨by decide, ?_, ?_⟩
  · refine PExprTree.call "f" [constT 1, constT 2] (by decide) ?_
    intro a ha
    cases ha with
    | head => exact PExprTree.const 1
    | tail _ hb =>
      cases hb with
      | head => exact PExprTree.const 2
      | tail _ hc => cases hc
  · have h := compile_ast_callN_ok "f" [] (by decide)
      (compile_ast_constT 1 [] (([] : List String) ++ ["# code for:", "# " ++ "f(1,2)"]))
      (compile_ast_constT 2 [] (([] : List String) ++ ["# code for:", "# " ++ "f(1,2)"]))
    rw [compileTop, h]
    rfl

/-- C3 amended: the top-level compile of a diagnostic-free tree never
fails because of an unknown operator.  Whenever every `Apply` node
carries the children its rendering consumes (one argument under `neg`
or `sqr`, two under any other operator — implemented or not), the
compile returns success; unknown operators are rendered infix rather
than detected, and the only failure modes are the uncaught
`IndexError` of a missing child (claim C2) and the internal
`ValueError` for non-expression node types. -/
theorem compile_succeeds_with_arities :
    ∀ (t : ValueTree), PExprTree t → wellArity t = true →
      ∀ (s : String) (code : List String),
        ∃ buf, compileTop t s code = .ok buf := by
  intro t ht hw s code
  obtain ⟨vd', code', e, h⟩ := compile_ast_succeeds t ht hw []
    (code ++ ["# code for:", "# " ++ s])
  refine ⟨(code' ++ ["_result = " ++ e]) ++ cleanup (sortItems vd'), ?_⟩
  rw [compileTop, h]

/-- C3 amended witness: the unknown two-argument operator `g` applied
to constants compiles successfully. -/
theorem compile_succeeds_with_arities_witness :
    ∃ buf, compileTop (callT "g" [constT 3, constT 4]) "g(3,4)" [] = .ok buf := by
  refine compile_succeeds_with_arities (callT "g" [constT 3, constT 4]) ?_ ?_ "g(3,4)" []
  · refine PExprTree.call "g" [constT 3, constT 4] (by decide) ?_
    intro a ha
    cases ha with
    | head => exact PExprTree.const 3
    | tail _ hb =>
      cases hb with
      | head => exact PExprTree.const 4
      | tail _ hc => cases hc
  · rw [show callT "g" [constT 3, constT 4] =
      ValueTree.node (.str "apply") [leaf "g", constT 3, constT 4] from rfl,
      wellArity_node, wellArityList_cons, wellArityList_cons, wellArityList_cons,
      wellArity_leaf "g" (by decide), wellArity_constT, wellArity_constT,
      wellArityList_nil]
    rfl

theorem vdGet_vdSet_self (vd : VarDict) (x : String) (n : ℕ) :
    vdGet (vdSet vd x n) x = some n := by
  induction vd with
  | nil => simp [vdSet, vdGet]
  | cons p rest ih =>
    obtain ⟨y, m⟩ := p
    by_cases h : y = x
    · rw [vdSet]
      simp only [h, if_true]
      rw [vdGet]
      simp
    · rw [vdSet]
      simp only [h, if_false]
      rw [vdGet]
      simp only [h, if_false]
      exact ih

theorem vdGet_vdSet_other (vd : VarDict) (x y : String) (n : ℕ) (h : y ≠ x) :
    vdGet (vdSet vd x n) y = vdGet vd y := by
  induction vd with
  | nil =>
    have hxy : ¬x = y := fun hc => h hc.symm
    simp [vdSet, vdGet, hxy]
  | cons p rest ih =>
    obtain ⟨z, m⟩ := p
    by_cases hz : z = x
    · rw [vdSet]
      simp only [hz, if_true]
      rw [vdGet, vdGet]
      have hxy : ¬x = y := fun hc => h hc.symm
      simp only [hxy, if_false]
    · rw [vdSet]
      simp only [hz, if_false]
      rw [vdGet, vdGet]
      by_cases hzy : z = y
      · simp [hzy]
      · simp only [hzy, if_false]
        exact ih

theorem compile_gen_mono (t : ValueTree) (vd : VarDict) (code : List String) :
    ∀ x : String, (vdGet vd x).getD 0 ≤ (vdGet (compile_ast t vd code).1 x).getD 0 := by
  refine compile_ast.induct
    (fun t vd code => ∀ x : String,
      (vdGet vd x).getD 0 ≤ (vdGet (compile_ast t vd code).1 x).getD 0)
    ?_ ?_ ?_ ?_ ?_ ?_ ?_ ?_ ?_ ?_ ?_ ?_ ?_ ?_ ?_ ?_ ?_ ?_ ?_ ?_ ?_ ?_ ?_ ?_ ?_ ?_
    t vd code
  · intro v vd code h x
    rw [compile_ast.eq_def]
    simp only [h]
    exact le_refl _
  · intro v vd code c tail h x
    rw [compile_ast.eq_def]
    simp only [h]
    exact le_refl _
  · intro v vd code h x
    rw [compile_ast.eq_def]
    simp only [h]
    exact le_refl _
  · intro v vd code c tail h a hs x
    rw [compile_ast.eq_def]
    simp only [h, hs]
    exact le_refl _
  · intro v vd code c tail h a hs x
    rw [compile_ast.eq_def]
    simp only [h, hs]
    exact le_refl _
  · intro v vd code h x
    rw [compile_ast.eq_def]
    simp only [h]
    exact le_refl _
  · intro v vd code head h x
    rw [compile_ast.eq_def]
    simp only [h]
    exact le_refl _
  · intro v vd code c0 c1 tail h a hs vd₁ code₁ cn hc1 n hn IH x
    have h2 : (vdGet vd x).getD 0 ≤ (vdGet vd₁ x).getD 0 := by
      have h3 := IH x
      rw [hc1] at h3
      exact h3
    rw [compile_ast.eq_def]
    simp only [h, hs, hc1, hn]
    by_cases hx : x = a
    · rw [hx, vdGet_vdSet_self]
      rw [hx, hn] at h2
      simp only [Option.getD_some] at h2 ⊢
      omega
    · rw [vdGet_vdSet_other vd₁ a x (n + 1) hx]
      exact h2
  · intro v vd code c0 c1 tail h a hs vd₁ code₁ cn hc1 hn IH x
    have h2 : (vdGet vd x).getD 0 ≤ (vdGet vd₁ x).getD 0 := by
      have h3 := IH x
      rw [hc1] at h3
      exact h3
    rw [compile_ast.eq_def]
    simp only [h, hs, hc1, hn]
    by_cases hx : x = a
    · rw [hx, hn] at h2
      rw [hx, vdGet_vdSet_self]
      simp only [Option.getD_some, Option.getD_none] at h2 ⊢
      omega
    · rw [vdGet_vdSet_other vd₁ a x 1 hx]
      exact h2
  · intro v vd code c0 c1 tail h a hs hfail IH x
    rcases hres : compile_ast c1 vd code with ⟨vd₁, code₁, r⟩
    cases r with
    | ok s => exact absurd hres (hfail vd₁ code₁ s)
    | error e =>
      have h2 : (vdGet vd x).getD 0 ≤ (vdGet vd₁ x).getD 0 := by
        have h3 := IH x
        rw [hres] at h3
        exact h3
      rw [compile_ast.eq_def]
      simp only [h, hs, hres]
      exact h2
  · intro v vd code c0 c1 tail h a hs x
    rw [compile_ast.eq_def]
    simp only [h, hs]
    exact le_refl _
  · intro v vd code h x
    rw [compile_ast.eq_def]
    simp only [h]
    exact le_refl _
  · intro v vd code c0 h hop x
    rw [compile_ast.eq_def]
    simp only [h, hop]
    exact le_refl _
  · intro v vd code c0 h c1 tail hop vd₁ code₁ tv hc1 IH x
    have h2 : (vdGet vd x).getD 0 ≤ (vdGet vd₁ x).getD 0 := by
      have h3 := IH x
      rw [hc1] at h3
      exact h3
    rw [compile_ast.eq_def]
    simp only [h, hop, hc1]
    exact h2
  · intro v vd code c0 h c1 tail hop hfail IH x
    rcases hres : compile_ast c1 vd code with ⟨vd₁, code₁, r⟩
    cases r with
    | ok s => exact absurd hres (hfail vd₁ code₁ s)
    | error e =>
      have h2 : (vdGet vd x).getD 0 ≤ (vdGet vd₁ x).getD 0 := by
        have h3 := IH x
        rw [hres] at h3
        exact h3
      rw [compile_ast.eq_def]
      simp only [h, hop, hres]
      exact h2
  · intro v vd code c0 h hop x
    rw [compile_ast.eq_def]
    simp only [h, hop]
    exact le_refl _
  · intro v vd code c0 h c1 tail hop vd₁ code₁ tv hc1 IH x
    have h2 : (vdGet vd x).getD 0 ≤ (vdGet vd₁ x).getD 0 := by
      have h3 := IH x
      rw [hc1] at h3
      exact h3
    rw [compile_ast.eq_def]
    simp only [h, hop, hc1]
    exact h2
  · intro v vd code c0 h c1 tail hop hfail IH x
    rcases hres : compile_ast c1 vd code with ⟨vd₁, code₁, r⟩
    cases r with
    | ok s => exact absurd hres (hfail vd₁ code₁ s)
    | error e =>
      have h2 : (vdGet vd x).getD 0 ≤ (vdGet vd₁ x).getD 0 := by
        have h3 := IH x
        rw [hres] at h3
        exact h3
      rw [compile_ast.eq_def]
      simp only [h, hop, hres]
      exact h2
  · intro v vd code c0 h hop x
    rw [compile_ast.eq_def]
    simp only [h, hop]
    exact le_refl _
  · intro v vd code c0 h c1 hop vd₁ code₁ tv hc1 IH x
    have h2 : (vdGet vd x).getD 0 ≤ (vdGet vd₁ x).getD 0 := by
      have h3 := IH x
      rw [hc1] at h3
      exact h3
    rw [compile_ast.eq_def]
    simp only [h, hop, hc1]
    exact h2
  · intro v vd code c0 h c1 hop hfail IH x
    rcases hres : compile_ast c1 vd code with ⟨vd₁, code₁, r⟩
    cases r with
    | ok s => exact absurd hres (hfail vd₁ code₁ s)
    | error e =>
      have h2 : (vdGet vd x).getD 0 ≤ (vdGet vd₁ x).getD 0 := by
        have h3 := IH x
        rw [hres] at h3
        exact h3
      rw [compile_ast.eq_def]
      simp only [h, hop, hres]
      exact h2
  · intro v vd code c0 h c1 c2 tail hop vd₁ code₁ d1 hc1 vd₂ code₂ d2 hc2 a hs IH1 IH2 x
    have h2 : (vdGet vd x).getD 0 ≤ (vdGet vd₁ x).getD 0 := by
      have h3 := IH1 x
      rw [hc1] at h3
      exact h3
    have h4 : (vdGet vd₁ x).getD 0 ≤ (vdGet vd₂ x).getD 0 := by
      have h3 := IH2 x
      rw [hc2] at h3
      exact h3
    rw [compile_ast.eq_def]
    simp only [h, hop, hc1, hc2]
    simp only [hs]
    exact le_trans h2 h4
  · intro v vd code c0 h c1 c2 tail hop vd₁ code₁ d1 hc1 vd₂ code₂ d2 hc2 a hs IH1 IH2 x
    have h2 : (vdGet vd x).getD 0 ≤ (vdGet vd₁ x).getD 0 := by
      have h3 := IH1 x
      rw [hc1] at h3
      exact h3
    have h4 : (vdGet vd₁ x).getD 0 ≤ (vdGet vd₂ x).getD 0 := by
      have h3 := IH2 x
      rw [hc2] at h3
      exact h3
    rw [compile_ast.eq_def]
    simp only [h, hop, hc1, hc2]
    simp only [hs]
    exact le_trans h2 h4
  · intro v vd code c0 h c1 c2 tail hop vd₁ code₁ d1 hc1 hfail IH1 IH2 x
    have h2 : (vdGet vd x).getD 0 ≤ (vdGet vd₁ x).getD 0 := by
      have h3 := IH1 x
      rw [hc1] at h3
      exact h3
    rcases hres : compile_ast c2 vd₁ code₁ with ⟨vd₂, code₂, r⟩
    cases r with
    | ok s => exact absurd hres (hfail vd₂ code₂ s)
    | error e =>
      have h4 : (vdGet vd₁ x).getD 0 ≤ (vdGet vd₂ x).getD 0 := by
        have h3 := IH2 x
        rw [hres] at h3
        exact h3
      rw [compile_ast.eq_def]
      simp only [h, hop, hc1, hres]
      exact le_trans h2 h4
  · intro v vd code c0 h c1 c2 tail hop hfail IH1 x
    rcases hres : compile_ast c1 vd code with ⟨vd₁, code₁, r⟩
    cases r with
    | ok s => exact absurd hres (hfail vd₁ code₁ s)
    | error e =>
      have h2 : (vdGet vd x).getD 0 ≤ (vdGet vd₁ x).getD 0 := by
        have h3 := IH1 x
        rw [hres] at h3
        exact h3
      rw [compile_ast.eq_def]
      simp only [h, hop, hres]
      exact h2
  · intro v children vd code h x
    rw [compile_ast_otherE v children vd code h]

theorem mem_sortedInsert (a b : String × Nat) (l : List (String × Nat)) :
    a ∈ sortedInsert b l ↔ a = b ∨ a ∈ l := by
  induction l with
  | nil => simp [sortedInsert]
  | cons c l ih =>
    rw [sortedInsert]
    by_cases h : key_fn b < key_fn c
    · simp [h]
    · simp only [h, if_false, List.mem_cons, ih]
      tauto

theorem mem_sortItems (a : String × Nat) (l : List (String × Nat)) :
    a ∈ sortItems l ↔ a ∈ l := by
  induction l with
  | nil => simp [sortItems]
  | cons b l ih =>
    rw [sortItems, mem_sortedInsert]
    simp [ih]

theorem cleanup_segment (x : String) (g : Nat) (l : List (String × Nat))
    (hm : (x, g) ∈ l) (hg : 0 < g) :
    ∃ pre post, cleanup l = pre ++
      (["# Update and cleanup " ++ x, x ++ " = " ++ make_gen_name x g] ++
        (List.range g).map (fun i => "del(" ++ make_gen_name x (i + 1) ++ ")")) ++ post := by
  induction l with
  | nil => simp at hm
  | cons b l ih =>
    obtain ⟨v, gen⟩ := b
    rcases List.mem_cons.mp hm with heq | hm2
    · injection heq with h1 h2
      subst h1
      subst h2
      refine ⟨[], cleanup l, ?_⟩
      rw [cleanup]
      simp [hg]
    · obtain ⟨pre, post, hseg⟩ := ih hm2
      refine ⟨(if gen > 0 then
          ["# Update and cleanup " ++ v, v ++ " = " ++ make_gen_name v gen] ++
            (List.range gen).map (fun g => "del(" ++ make_gen_name v (g + 1) ++ ")")
        else []) ++ pre, post, ?_⟩
      rw [cleanup, hseg]
      simp [List.append_assoc]

/-- C5: within one top-level compile, (i) compiling a Set node for a
variable writes exactly one more than the variable's previous
generation into the generation map (one when it had no entry) and
emits the assignment of the new generation name, (ii) generations
never decrease across any compile step, so the final map holds the
highest generation each variable reached, and (iii) for every
assigned variable the emitted cleanup contains the comment, the
assignment of the bare name from its highest generation, and one
delete per generation from 1 up to that highest one. -/
theorem set_generation_steps_and_cleanup :
    (∀ (x : String) (c0 e : ValueTree) (rest : List ValueTree)
        (vd vd₁ : VarDict) (code code₁ : List String) (cn : String),
        c0.get_value = Val.str x →
        compile_ast e vd code = (vd₁, code₁, Except.ok cn) →
        compile_ast (.node (.str "set") (c0 :: e :: rest)) vd code =
          (vdSet vd₁ x ((vdGet vd₁ x).getD 0 + 1),
            code₁ ++ [make_gen_name x ((vdGet vd₁ x).getD 0 + 1) ++ " = " ++ cn],
            Except.ok (make_gen_name x ((vdGet vd₁ x).getD 0 + 1))))
    ∧ (∀ (t : ValueTree) (vd : VarDict) (code : List String) (x : String),
        (vdGet vd x).getD 0 ≤ (vdGet (compile_ast t vd code).1 x).getD 0)
    ∧ (∀ (ast : ValueTree) (s : String) (code : List String)
        (vd' : List (String × Nat)) (code' : List String) (lastE : String)
        (x : String) (g : Nat),
        compile_ast ast [] (code ++ ["# code for:", "# " ++ s]) =
          (vd', code', Except.ok lastE) →
        (x, g) ∈ vd' → 0 < g →
        ∃ pre post,
          compileTop ast s code =
            CompileOutcome.ok (pre ++
              (["# Update and cleanup " ++ x, x ++ " = " ++ make_gen_name x g] ++
                (List.range g).map (fun i => "del(" ++ make_gen_name x (i + 1) ++ ")")) ++
              post)) := by
  refine ⟨?_, fun t vd code x => compile_gen_mono t vd code x, ?_⟩
  · intro x c0 e rest vd vd₁ code code₁ cn hx hc
    rw [compile_ast_setE]
    cases hn : vdGet vd₁ x with
    | some n =>
      simp only [hx, hc, hn, Option.getD_some]
      rw [make_gen_name]
      simp
    | none =>
      simp only [hx, hc, hn, Option.getD_none]
      rw [make_gen_name]
      simp
  · intro ast s code vd' code' lastE x g h hm hg
    obtain ⟨pre, post, hseg⟩ :=
      cleanup_segment x g (sortItems vd') ((mem_sortItems _ _).mpr hm) hg
    refine ⟨(code' ++ ["_result = " ++ lastE]) ++ pre, post, ?_⟩
    rw [compileTop, h]
    show CompileOutcome.ok
        ((code' ++ ["_result = " ++ lastE]) ++ cleanup (sortItems vd')) = _
    rw [hseg]
    simp [List.append_assoc]

theorem set_generation_steps_and_cleanup_witness :
    ∃ pre post,
      compileTop (setT "x" (constT 5)) "x = 5" [] =
        CompileOutcome.ok (pre ++
          (["# Update and cleanup " ++ "x", "x" ++ " = " ++ make_gen_name "x" 1] ++
            (List.range 1).map (fun i => "del(" ++ make_gen_name "x" (i + 1) ++ ")")) ++
          post) := by
  refine set_generation_steps_and_cleanup.2.2 (setT "x" (constT 5)) "x = 5" []
    [("x", 1)] ["# code for:", "# x = 5", "_x_1 = 5"] "_x_1" "x" 1 ?_ ?_ ?_
  · have h1 := compile_ast_constT 5 [] ([] ++ ["# code for:", "# " ++ "x = 5"])
    exact (compile_ast_setT_new "x" h1 rfl).trans rfl
  · simp
  · decide
